import Mathlib

/-!
# Windowed seed rotation (`src/ios/proto.cc`)

A shallow embedding of `td::SeedDiskData` (the two-seed chain with its window) and of
`td::SeedStore` (the persistent front-end), followed by theorems about them.

Conventions of the embedding:

* `int64_t` values are modelled as `Int`; signed overflow (undefined behaviour in C++) is
  outside the model.
* The classes `Seed` and `Id` are declared in `proto.h`, which is not part of the sources at
  hand.  Their operations are collected in the record `SeedOps` and taken as a parameter; every
  property assumed of them appears as an explicit hypothesis of the theorem that needs it.
* The `while` loops of the source are modelled with a fuel argument that bounds the number of
  iterations; `none` means that the fuel ran out before the loop condition became false.
* `saveTo` is modelled on a file system that accepts the write and the rename.  In the source a
  failed open or write makes the stream throw `std::ios_base::failure`, and the result of
  `rename` is ignored; such runs are outside the model, and no theorem below says anything
  about them.
-/

namespace td

/-! ## Definitions -/

/-- An exception in flight.  The source raises its own failures with
`throw new std::runtime_error(..)`, that is, it throws a *pointer*; the standard library
(`std::stoll`) throws exception objects *by value*.  The only handler of the source,
`catch(std::exception *e)`, matches the first kind only. -/
inductive Thrown where
  | ptr (what : String)
  | val (what : String)
deriving DecidableEq, Repr

/-- The operations of the classes `Seed` and `Id` (declared in `proto.h`) that `proto.cc` uses.
`R` is the type of one draw of the secure random source, made an explicit argument of
`safeRandomSeed`. -/
structure SeedOps (Seed Id R : Type) where
  /-- The method `Seed::ts()`. -/
  ts : Seed → Int
  /-- The method `Seed::stepInPlace(Id &id, int64_t stepSize)`: the seed afterwards and the identifier
  written to `id`. -/
  stepInPlace : Seed → Int → Seed × Id
  /-- The method `Seed::genId()`. -/
  genId : Seed → Id
  /-- The static method `Seed::safeRandomSeed(int64_t ts)`. -/
  safeRandomSeed : R → Int → Seed
  /-- The method `Seed::serialize()`. -/
  serialize : Seed → List Char
  /-- The static method `Seed::parse(const std::string &)`; a failure is the exception it throws. -/
  parse : List Char → Except Thrown Seed
  /-- the value of a default-constructed `Id` -/
  defaultId : Id

/-- Modelled from the spec: `round_down_timestamp` is declared in `util.h`, which is not part of
the sources at hand; the specification describes it as the floor-to-multiple rounding function
for a given step size. -/
def round_down_timestamp (ts stepSize : Int) : Int :=
  ts - ts % stepSize

/-- The fields of `class SeedDiskData`. -/
structure SeedDiskData (Seed : Type) where
  _s_star : Seed
  _s_current : Seed
  _window : Int
deriving DecidableEq, Repr

variable {Seed Id R : Type}

/-- The seed after `k` calls of `stepInPlace` with the same step size. -/
def stepN (ops : SeedOps Seed Id R) (stepSize : Int) : Nat → Seed → Seed
  | 0, s => s
  | k + 1, s => stepN ops stepSize k (ops.stepInPlace s stepSize).1

/-- The loop of `SeedDiskData::createNew`:
`while(res._s_current.ts() < now) res._s_current.stepInPlace(tmp, stepSize);` -/
def createNewLoop (ops : SeedOps Seed Id R) (now stepSize : Int) : Nat → Seed → Option Seed
  | 0, cur => if ops.ts cur < now then none else some cur
  | fuel + 1, cur =>
    if ops.ts cur < now then
      createNewLoop ops now stepSize fuel (ops.stepInPlace cur stepSize).1
    else some cur

/-- The function `SeedDiskData::createNew(now, stepSize, window)`; `r` is the random draw consumed by
`Seed::safeRandomSeed`. -/
def SeedDiskData.createNew (ops : SeedOps Seed Id R) (fuel : Nat) (r : R)
    (now stepSize window : Int) : Option (SeedDiskData Seed) :=
  let now := round_down_timestamp now stepSize
  let star := ops.safeRandomSeed r (now - window)
  match createNewLoop ops now stepSize fuel star with
  | none => none
  | some cur => some { _s_star := star, _s_current := cur, _window := window }

/-- One iteration of the loop of `SeedDiskData::stepTo`: advance `_s_current`, then advance
`_s_star` if the gap exceeds the window.  Returns the identifier written by the advance of
`_s_current`. -/
def stepToIter (ops : SeedOps Seed Id R) (stepSize : Int) (d : SeedDiskData Seed) :
    Id × SeedDiskData Seed :=
  let r := ops.stepInPlace d._s_current stepSize
  if ops.ts r.1 - ops.ts d._s_star > d._window then
    (r.2, { d with _s_current := r.1, _s_star := (ops.stepInPlace d._s_star stepSize).1 })
  else
    (r.2, { d with _s_current := r.1 })

/-- The loop of `SeedDiskData::stepTo`, carrying the local `id`. -/
def stepToLoop (ops : SeedOps Seed Id R) (now stepSize : Int) :
    Nat → Id → SeedDiskData Seed → Option (Id × SeedDiskData Seed)
  | 0, id, d => if ops.ts d._s_current < now then none else some (id, d)
  | fuel + 1, id, d =>
    if ops.ts d._s_current < now then
      stepToLoop ops now stepSize fuel (stepToIter ops stepSize d).1 (stepToIter ops stepSize d).2
    else some (id, d)

/-- The method `SeedDiskData::stepTo(now, stepSize)`: the returned identifier and the chain afterwards. -/
def SeedDiskData.stepTo (ops : SeedOps Seed Id R) (fuel : Nat) (d : SeedDiskData Seed)
    (now stepSize : Int) : Option (Id × SeedDiskData Seed) :=
  let now := round_down_timestamp now stepSize
  if ops.ts d._s_current ≥ now then some (ops.genId d._s_current, d)
  else stepToLoop ops now stepSize fuel ops.defaultId d

/-- The loop of `SeedDiskData::changeWindow`:
`while((_s_current.ts() - _s_star.ts()) > _window) _s_star.stepInPlace(tmp, stepSize);` -/
def changeWindowLoop (ops : SeedOps Seed Id R) (stepSize : Int) :
    Nat → SeedDiskData Seed → Option (SeedDiskData Seed)
  | 0, d => if ops.ts d._s_current - ops.ts d._s_star > d._window then none else some d
  | fuel + 1, d =>
    if ops.ts d._s_current - ops.ts d._s_star > d._window then
      changeWindowLoop ops stepSize fuel
        { d with _s_star := (ops.stepInPlace d._s_star stepSize).1 }
    else some d

/-- The method `SeedDiskData::changeWindow(newWindow, stepSize)`. -/
def SeedDiskData.changeWindow (ops : SeedOps Seed Id R) (fuel : Nat) (d : SeedDiskData Seed)
    (newWindow stepSize : Int) : Option (SeedDiskData Seed) :=
  changeWindowLoop ops stepSize fuel { d with _window := newWindow }

/-- The gap `_s_current.ts() - _s_star.ts()` between newest and oldest. -/
def SeedDiskData.gap (ops : SeedOps Seed Id R) (d : SeedDiskData Seed) : Int :=
  ops.ts d._s_current - ops.ts d._s_star

/-! ### Persistence: the record on disk -/

/-- The output `outfile << _window`: the decimal rendering of an `int64_t` (a minus sign for a negative
value, then the digits). -/
def printInt64 (w : Int) : List Char :=
  if w < 0 then '-' :: Nat.toDigits 10 w.natAbs else Nat.toDigits 10 w.natAbs

/-- The predicate `isspace` of the "C" locale: the space and the control characters 9 to 13
(tab, newline, vertical tab, form feed, carriage return). -/
def isspace (c : Char) : Bool :=
  c.toNat = 32 || (9 ≤ c.toNat && c.toNat ≤ 13)

/-- The number denoted by a list of decimal digits. -/
def digitsValue (ds : List Char) : Nat :=
  ds.foldl (fun a c => 10 * a + (c.toNat - 48)) 0

/-- The function `std::stoll(line)` with its default base 10: skip leading white space, read an optional
sign and the longest run of digits, ignore what follows.  It throws `std::invalid_argument`
(by value) when there is no digit to read, and `std::out_of_range` (by value) when the number
does not fit an `int64_t`. -/
def stoll (s : List Char) : Except Thrown Int :=
  let s1 := s.dropWhile isspace
  let s2 := if s1.head? = some '-' ∨ s1.head? = some '+' then s1.tail else s1
  let ds := s2.takeWhile Char.isDigit
  if ds = [] then Except.error (Thrown.val "std::invalid_argument")
  else
    let v : Int := if s1.head? = some '-' then -(digitsValue ds : Int) else (digitsValue ds : Int)
    if v < -(2 ^ 63) ∨ 2 ^ 63 ≤ v then Except.error (Thrown.val "std::out_of_range")
    else Except.ok v

/-- The call `std::getline(infile, line)`: `none` when no character can be extracted (end of input);
otherwise the characters up to the first newline, and the input that remains after that
newline. -/
def getline (s : List Char) : Option (List Char × List Char) :=
  match s with
  | [] => none
  | _ :: _ => some (s.takeWhile (fun c => c != '\n'), (s.dropWhile (fun c => c != '\n')).drop 1)

/-- One input or output operation on the persisted record, kept in a log so that the number
of load and save cycles of an operation can be stated. -/
inductive IOEvent where
  | load (location : String)
  | save (location : String)
deriving DecidableEq, Repr

/-- The environment of a store: the content of every file (`none`: the file does not exist),
and the log of loads and saves performed so far.  The world has no failing writes: see
`SeedDiskData.saveTo`. -/
structure World where
  files : String → Option (List Char)
  log : List IOEvent

/-- The text that `saveTo` writes: the window, the serialized `_s_star` and the serialized
`_s_current`, each followed by `std::endl`. -/
def SeedDiskData.record (ops : SeedOps Seed Id R) (d : SeedDiskData Seed) : List Char :=
  printInt64 d._window ++ '\n' :: (ops.serialize d._s_star ++ '\n' ::
    (ops.serialize d._s_current ++ ['\n']))

/-- The body of `SeedDiskData::loadFrom` on the content of the file (`none` for a file that
cannot be opened: the stream is then in a failed state and the first `getline` fails). -/
def SeedDiskData.readRecord (ops : SeedOps Seed Id R) (content : Option (List Char)) :
    Except Thrown (SeedDiskData Seed) :=
  match content with
  | none => Except.error (Thrown.ptr "Could not read from seed file")
  | some s0 =>
    match getline s0 with
    | none => Except.error (Thrown.ptr "Could not read from seed file")
    | some (line1, s1) =>
      match stoll line1 with
      | Except.error e => Except.error e
      | Except.ok window =>
        match getline s1 with
        | none => Except.error (Thrown.ptr "Could not read from seed file")
        | some (line2, s2) =>
          match ops.parse line2 with
          | Except.error e => Except.error e
          | Except.ok star =>
            match getline s2 with
            | none => Except.error (Thrown.ptr "Could not read from seed file")
            | some (line3, _) =>
              match ops.parse line3 with
              | Except.error e => Except.error e
              | Except.ok cur =>
                Except.ok { _s_star := star, _s_current := cur, _window := window }

/-- The function `SeedDiskData::loadFrom(location)`: the chain read or the exception thrown, and the world
afterwards (the files are untouched, the load is logged). -/
def SeedDiskData.loadFrom (ops : SeedOps Seed Id R) (w : World) (location : String) :
    Except Thrown (SeedDiskData Seed) × World :=
  (SeedDiskData.readRecord ops (w.files location),
    { w with log := w.log ++ [IOEvent.load location] })

/-- The method `SeedDiskData::saveTo(location)`: write the record to `location + ".tmp"`, then
rename that file over `location`.  This is the run in which the file system accepts the write
and the rename; the source sets `outfile.exceptions(failbit | badbit)`, so that a failed open
or write throws `std::ios_base::failure`, and it ignores the result of `rename`: those runs
are not modelled. -/
def SeedDiskData.saveTo (ops : SeedOps Seed Id R) (d : SeedDiskData Seed) (w : World)
    (location : String) : World :=
  let tmp_file := location ++ ".tmp"
  let written : String → Option (List Char) :=
    fun p => if p = tmp_file then some (d.record ops) else w.files p
  { files := fun p =>
      if p = location then written tmp_file
      else if p = tmp_file then none
      else written p
    log := w.log ++ [IOEvent.save location] }

/-! ### The store -/

/-- The fields of `class SeedStore`. -/
structure SeedStore (Id : Type) where
  _fileName : String
  _stepSize : Int
  _window : Int
  _timestamp : Int
  _currentId : Id

/-- How a call ended: it returned a value, it left with an exception, or the fuel of one of
its loops ran out. -/
inductive Outcome (α : Type) where
  | returned (a : α)
  | threw (e : Thrown)
  | outOfFuel

/-- The method `SeedStore::get_rounded_timestamp()`; `t` is the value of `get_timestamp()`. -/
def SeedStore.get_rounded_timestamp (st : SeedStore Id) (t : Int) : Int :=
  round_down_timestamp t st._stepSize

/-- The constructor `SeedStore::SeedStore(storageLocation, step_size, initialWindow)`.  `t` is
the wall-clock time and `r` the random draw used if a new chain is created.  The handler
`catch(std::exception *e)` takes the exceptions thrown as pointers; an exception thrown by
value leaves the constructor. -/
def SeedStore.construct (ops : SeedOps Seed Id R) (fuel : Nat) (w : World)
    (storageLocation : String) (step_size initialWindow : Int) (t : Int) (r : R) :
    Outcome (SeedStore Id) × World :=
  let st : SeedStore Id :=
    { _fileName := storageLocation, _stepSize := step_size, _window := initialWindow,
      _timestamp := 0, _currentId := ops.defaultId }
  match SeedDiskData.loadFrom ops w st._fileName with
  | (Except.ok _, w1) => (Outcome.returned st, w1)
  | (Except.error (Thrown.val what), w1) => (Outcome.threw (Thrown.val what), w1)
  | (Except.error (Thrown.ptr _), w1) =>
    match SeedDiskData.createNew ops fuel r (st.get_rounded_timestamp t) st._stepSize
        st._window with
    | none => (Outcome.outOfFuel, w1)
    | some sdd => (Outcome.returned st, sdd.saveTo ops w1 st._fileName)

/-- The method `SeedStore::getCurrentId()`; `t` is the wall-clock time. -/
def SeedStore.getCurrentId (ops : SeedOps Seed Id R) (fuel : Nat) (st : SeedStore Id)
    (w : World) (t : Int) : Outcome Id × SeedStore Id × World :=
  let now := st.get_rounded_timestamp t
  if now = st._timestamp then (Outcome.returned st._currentId, st, w)
  else
    match SeedDiskData.loadFrom ops w st._fileName with
    | (Except.error e, w1) => (Outcome.threw e, st, w1)
    | (Except.ok sdd, w1) =>
      match sdd.stepTo ops fuel now st._stepSize with
      | none => (Outcome.outOfFuel, st, w1)
      | some (id, sdd1) =>
        (Outcome.returned id, { st with _currentId := id }, sdd1.saveTo ops w1 st._fileName)

/-- The method `SeedStore::changeWindow(newWindow)`. -/
def SeedStore.changeWindow (ops : SeedOps Seed Id R) (fuel : Nat) (st : SeedStore Id)
    (w : World) (newWindow : Int) : Outcome Unit × SeedStore Id × World :=
  if newWindow = st._window then (Outcome.returned (), st, w)
  else
    match SeedDiskData.loadFrom ops w st._fileName with
    | (Except.error e, w1) => (Outcome.threw e, st, w1)
    | (Except.ok sdd, w1) =>
      match sdd.changeWindow ops fuel newWindow st._stepSize with
      | none => (Outcome.outOfFuel, st, w1)
      | some sdd1 => (Outcome.returned (), st, sdd1.saveTo ops w1 st._fileName)

/-- The first half of `SeedStore::getSeedAndRotate()`: the seed to disclose.  `access(..,
F_OK) == -1` holds when the file does not exist; `rSeed` is the random draw used in that
case. -/
def SeedStore.seedToDisclose (ops : SeedOps Seed Id R) (fuel : Nat) (st : SeedStore Id)
    (w : World) (now : Int) (rSeed : R) : Outcome Seed × World :=
  match w.files st._fileName with
  | none => (Outcome.returned (ops.safeRandomSeed rSeed (now - st._window)), w)
  | some _ =>
    match SeedDiskData.loadFrom ops w st._fileName with
    | (Except.error e, w1) => (Outcome.threw e, w1)
    | (Except.ok sdd, w1) =>
      match sdd.stepTo ops fuel now st._stepSize with
      | none => (Outcome.outOfFuel, w1)
      | some (_, sdd1) => (Outcome.returned sdd1._s_star, w1)

/-- The method `SeedStore::getSeedAndRotate()`; `t` is the wall-clock time, `rSeed` the random draw for
the seed reported when there is no file, `rNew` the random draw of the new chain. -/
def SeedStore.getSeedAndRotate (ops : SeedOps Seed Id R) (fuel : Nat) (st : SeedStore Id)
    (w : World) (t : Int) (rSeed rNew : R) : Outcome Seed × SeedStore Id × World :=
  let now := st.get_rounded_timestamp t
  match SeedStore.seedToDisclose ops fuel st w now rSeed with
  | (Outcome.threw e, w1) => (Outcome.threw e, st, w1)
  | (Outcome.outOfFuel, w1) => (Outcome.outOfFuel, st, w1)
  | (Outcome.returned seed, w1) =>
    match SeedDiskData.createNew ops fuel rNew now st._stepSize st._window with
    | none => (Outcome.outOfFuel, st, w1)
    | some newData =>
      (Outcome.returned seed, { st with _timestamp := 0 }, newData.saveTo ops w1 st._fileName)

/-- The method `SeedStore::makeSeedCurrent()`. -/
def SeedStore.makeSeedCurrent (ops : SeedOps Seed Id R) (fuel : Nat) (st : SeedStore Id)
    (w : World) (t : Int) : Outcome Unit × SeedStore Id × World :=
  match SeedStore.getCurrentId ops fuel st w t with
  | (Outcome.returned _, st1, w1) => (Outcome.returned (), st1, w1)
  | (Outcome.threw e, st1, w1) => (Outcome.threw e, st1, w1)
  | (Outcome.outOfFuel, st1, w1) => (Outcome.outOfFuel, st1, w1)

/-- A concrete seed used to evaluate the definitions: a timestamp and a chain state. -/
structure DemoSeed where
  ts : Int
  key : Nat
deriving DecidableEq, Repr

/-- A concrete instance of the seed operations: one step adds the step size to the timestamp
and maps the state `k` to `(7 * k + 3) % 101`; the identifier of a seed is its state plus
1000, and a step reports the identifier of the seed it produces.  A seed is serialized as its
timestamp, a comma, and its state, both in decimal. -/
def demoOps : SeedOps DemoSeed Nat Nat where
  ts := fun s => s.ts
  stepInPlace := fun s d =>
    ({ ts := s.ts + d, key := (7 * s.key + 3) % 101 }, (7 * s.key + 3) % 101 + 1000)
  genId := fun s => s.key + 1000
  safeRandomSeed := fun r t => { ts := t, key := r % 101 }
  serialize := fun s => printInt64 s.ts ++ ',' :: Nat.toDigits 10 s.key
  parse := fun l =>
    match stoll (l.takeWhile (fun c => c != ',')) with
    | Except.error _ => Except.error (Thrown.ptr "bad seed")
    | Except.ok ts =>
      if ((l.dropWhile (fun c => c != ',')).drop 1).all Char.isDigit &&
          !((l.dropWhile (fun c => c != ',')).drop 1).isEmpty then
        Except.ok { ts := ts, key := digitsValue ((l.dropWhile (fun c => c != ',')).drop 1) }
      else Except.error (Thrown.ptr "bad seed")
  defaultId := 0

/-- A world whose only file is `seeds.txt` with the given content, and an empty log. -/
def demoWorld (content : List Char) : World where
  files := fun p => if p = "seeds.txt" then some content else none
  log := []

/-- The store as the constructor leaves it for `seeds.txt`, step size 100 and window 1000. -/
def demoStore : SeedStore Nat where
  _fileName := "seeds.txt"
  _stepSize := 100
  _window := 1000
  _timestamp := 0
  _currentId := 0

/-- A world without any file, and an empty log. -/
def emptyWorld : World where
  files := fun _ => none
  log := []

/-- A run with a clock that stays in the first step bucket: the store is constructed at time
50 on an empty file system (step size 100, window 1000), rotated at time 60, and asked for the
current identifier at time 70.  The result is that of the last call. -/
def rotateThenQueryAtZero : Outcome Nat × SeedStore Nat × World :=
  SeedStore.getCurrentId demoOps 20
    (SeedStore.getSeedAndRotate demoOps 20 demoStore
      (SeedStore.construct demoOps 20 emptyWorld "seeds.txt" 100 1000 50 5).2 60 6 7).2.1
    (SeedStore.getSeedAndRotate demoOps 20 demoStore
      (SeedStore.construct demoOps 20 emptyWorld "seeds.txt" 100 1000 50 5).2 60 6 7).2.2
    70

/-- The least number of steps of size `stepSize` that take a timestamp `t` to `n` or beyond:
`ceil((n - t) / stepSize)`, and `0` when `t` is already at or beyond `n`. -/
def ceilSteps (t n stepSize : Int) : Nat :=
  ((n - t + stepSize - 1) / stepSize).toNat

/-- The state after `k` iterations of the loop body of `stepTo`, starting from the local
`id` and the chain `d`. -/
def stepToN (ops : SeedOps Seed Id R) (stepSize : Int) : Nat → Id × SeedDiskData Seed →
    Id × SeedDiskData Seed
  | 0, p => p
  | k + 1, p => stepToN ops stepSize k (stepToIter ops stepSize p.2)

/-- A sequence of `stepTo` calls on one chain, each with the same fuel; the result lists the
identifier returned by each call together with the chain after it. -/
def stepToSeq (ops : SeedOps Seed Id R) (fuel : Nat) (stepSize : Int) :
    SeedDiskData Seed → List Int → Option (List (Id × SeedDiskData Seed))
  | _, [] => some []
  | d, now :: rest =>
    match SeedDiskData.stepTo ops fuel d now stepSize with
    | none => none
    | some p =>
      match stepToSeq ops fuel stepSize p.2 rest with
      | none => none
      | some l => some (p :: l)

/-- Assumption on the seed primitive: one step raises the timestamp by exactly the step
size. -/
def StepAddsTs (ops : SeedOps Seed Id R) : Prop :=
  ∀ s d, ops.ts (ops.stepInPlace s d).1 = ops.ts s + d

/-- Assumption on the seed primitive: a fresh random seed carries the timestamp it was asked
for. -/
def FreshAnchored (ops : SeedOps Seed Id R) : Prop :=
  ∀ r t, ops.ts (ops.safeRandomSeed r t) = t

/-- Assumption on the seed primitive: `genId` of a seed that was just advanced is the
identifier that the advance wrote. -/
def GenIdOfStep (ops : SeedOps Seed Id R) : Prop :=
  ∀ s d, ops.genId (ops.stepInPlace s d).1 = (ops.stepInPlace s d).2

/-- One call on a chain after its creation: `stepTo(now, stepSize)` or
`changeWindow(newWindow, stepSize)`; the step size is that of the run. -/
inductive ChainCall where
  | stepTo (now : Int)
  | changeWindow (newWindow : Int)
deriving DecidableEq, Repr

/-- The chain after one call (the identifier returned by `stepTo` is dropped). -/
def applyCall (ops : SeedOps Seed Id R) (fuel : Nat) (stepSize : Int) (d : SeedDiskData Seed) :
    ChainCall → Option (SeedDiskData Seed)
  | ChainCall.stepTo now => (d.stepTo ops fuel now stepSize).map Prod.snd
  | ChainCall.changeWindow newWindow => d.changeWindow ops fuel newWindow stepSize

/-- A sequence of calls on one chain, each with the same fuel; the result lists the chain
after each call. -/
def runCalls (ops : SeedOps Seed Id R) (fuel : Nat) (stepSize : Int) :
    SeedDiskData Seed → List ChainCall → Option (List (SeedDiskData Seed))
  | _, [] => some []
  | d, c :: rest =>
    match applyCall ops fuel stepSize d c with
    | none => none
    | some d1 =>
      match runCalls ops fuel stepSize d1 rest with
      | none => none
      | some l => some (d1 :: l)

/-- The greatest rounded time queried so far, after each call of a sequence; `m` is the
greatest rounded time queried before the sequence.  Only `stepTo` queries a time. -/
def queriedMax (stepSize : Int) : Int → List ChainCall → List Int
  | _, [] => []
  | m, ChainCall.stepTo now :: rest =>
    max m (round_down_timestamp now stepSize) ::
      queriedMax stepSize (max m (round_down_timestamp now stepSize)) rest
  | m, ChainCall.changeWindow _ :: rest => m :: queriedMax stepSize m rest

/-- The property that every `changeWindow` of a sequence of calls has a window `≥ 0`. -/
def windowsNonneg : List ChainCall → Prop
  | [] => True
  | ChainCall.stepTo _ :: rest => windowsNonneg rest
  | ChainCall.changeWindow newWindow :: rest => 0 ≤ newWindow ∧ windowsNonneg rest

/-- What a sequence of `stepTo` calls shows of the newest seed: the identifier returned by
each call and the newest seed after it. -/
def idsAndNewest (tr : List (Id × SeedDiskData Seed)) : List (Id × Seed) :=
  tr.map (fun p => (p.1, p.2._s_current))

/-- The chain linkage: newest is oldest advanced some number of times by the seed step. -/
def Linked (ops : SeedOps Seed Id R) (stepSize : Int) (d : SeedDiskData Seed) : Prop :=
  ∃ m : Nat, d._s_current = stepN ops stepSize m d._s_star

/-! ## Arithmetic of step counts -/

theorem ceilSteps_reach (t n s : Int) (hs : 0 < s) : n ≤ t + (ceilSteps t n s : Int) * s := by
  unfold ceilSteps
  have h1 := Int.lt_ediv_add_one_mul_self (n - t + s - 1) hs
  rcases le_or_lt ((n - t + s - 1) / s) 0 with hq | hq
  · rw [Int.toNat_of_nonpos hq]
    have : ((n - t + s - 1) / s + 1) * s ≤ 1 * s :=
      mul_le_mul_of_nonneg_right (by omega) (le_of_lt hs)
    simp only [Nat.cast_zero, zero_mul, add_zero]
    linarith
  · rw [Int.toNat_of_nonneg (le_of_lt hq)]
    linarith

theorem ceilSteps_least (t n s : Int) (hs : 0 < s) (j : Nat) (hj : j < ceilSteps t n s) :
    t + (j : Int) * s < n := by
  unfold ceilSteps at hj
  have h1 := Int.ediv_mul_le (n - t + s - 1) (ne_of_gt hs)
  have hq : (j : Int) + 1 ≤ (n - t + s - 1) / s := by omega
  have : ((j : Int) + 1) * s ≤ (n - t + s - 1) / s * s :=
    mul_le_mul_of_nonneg_right hq (le_of_lt hs)
  linarith

theorem ceilSteps_eq_zero (t n s : Int) (hs : 0 < s) (h : n ≤ t) : ceilSteps t n s = 0 := by
  by_contra hne
  have := ceilSteps_least t n s hs 0 (Nat.pos_of_ne_zero hne)
  simp at this
  omega

theorem ceilSteps_pos (t n s : Int) (hs : 0 < s) (h : t < n) : 0 < ceilSteps t n s := by
  by_contra hne
  have h0 : ceilSteps t n s = 0 := by omega
  have := ceilSteps_reach t n s hs
  rw [h0] at this
  simp at this
  omega

/-- The step count is characterised by the two properties of a least number of steps. -/
theorem ceilSteps_unique (t n s : Int) (hs : 0 < s) (k : Nat)
    (hreach : n ≤ t + (k : Int) * s) (hleast : ∀ j : Nat, j < k → t + (j : Int) * s < n) :
    k = ceilSteps t n s := by
  rcases lt_trichotomy k (ceilSteps t n s) with h | h | h
  · have := ceilSteps_least t n s hs k h
    omega
  · exact h
  · have h1 := hleast _ h
    have h2 := ceilSteps_reach t n s hs
    omega

theorem round_down_le (t s : Int) (hs : 0 < s) : round_down_timestamp t s ≤ t := by
  unfold round_down_timestamp
  have := Int.emod_nonneg t (ne_of_gt hs)
  omega

theorem round_down_dvd (t s : Int) : s ∣ round_down_timestamp t s := by
  unfold round_down_timestamp
  exact Int.dvd_sub_of_emod_eq rfl

theorem round_down_gt (t s : Int) (hs : 0 < s) : t < round_down_timestamp t s + s := by
  unfold round_down_timestamp
  have := Int.emod_lt_of_pos t hs
  omega

/-! ## The loops, characterised by their number of iterations -/

theorem stepN_succ (ops : SeedOps Seed Id R) (s : Int) (k : Nat) (x : Seed) :
    stepN ops s (k + 1) x = (ops.stepInPlace (stepN ops s k x) s).1 := by
  induction k generalizing x with
  | zero => rfl
  | succ k ih =>
    show stepN ops s (k + 1) (ops.stepInPlace x s).1 = _
    rw [ih]
    rfl

theorem ts_stepN (ops : SeedOps Seed Id R) (h : StepAddsTs ops) (s : Int) (k : Nat) (x : Seed) :
    ops.ts (stepN ops s k x) = ops.ts x + (k : Int) * s := by
  induction k with
  | zero => simp [stepN]
  | succ k ih =>
    rw [stepN_succ, h, ih]
    push_cast
    ring

theorem createNewLoop_eq (ops : SeedOps Seed Id R) (now s : Int) (fuel k : Nat) (cur : Seed)
    (hleast : ∀ j, j < k → ops.ts (stepN ops s j cur) < now)
    (hreach : ¬ ops.ts (stepN ops s k cur) < now) :
    createNewLoop ops now s fuel cur = if k ≤ fuel then some (stepN ops s k cur) else none := by
  induction fuel generalizing k cur with
  | zero =>
    cases k with
    | zero =>
      have h0 : ¬ ops.ts cur < now := hreach
      simp [createNewLoop, h0, stepN]
    | succ k =>
      have h0 : ops.ts cur < now := hleast 0 (Nat.succ_pos k)
      simp [createNewLoop, h0]
  | succ fuel ih =>
    cases k with
    | zero =>
      have h0 : ¬ ops.ts cur < now := hreach
      simp [createNewLoop, h0, stepN]
    | succ k =>
      have h0 : ops.ts cur < now := hleast 0 (Nat.succ_pos k)
      have := ih k (ops.stepInPlace cur s).1
        (fun j hj => hleast (j + 1) (Nat.succ_lt_succ hj)) hreach
      simp only [createNewLoop, h0, if_true, this, Nat.succ_le_succ_iff, stepN]

theorem stepToN_succ (ops : SeedOps Seed Id R) (s : Int) (k : Nat) (p : Id × SeedDiskData Seed) :
    stepToN ops s (k + 1) p = stepToIter ops s (stepToN ops s k p).2 := by
  induction k generalizing p with
  | zero => rfl
  | succ k ih =>
    show stepToN ops s (k + 1) (stepToIter ops s p.2) = _
    rw [ih]
    rfl

theorem stepToIter_current (ops : SeedOps Seed Id R) (s : Int) (d : SeedDiskData Seed) :
    (stepToIter ops s d).2._s_current = (ops.stepInPlace d._s_current s).1 := by
  simp only [stepToIter]
  split <;> rfl

theorem stepToIter_window (ops : SeedOps Seed Id R) (s : Int) (d : SeedDiskData Seed) :
    (stepToIter ops s d).2._window = d._window := by
  simp only [stepToIter]
  split <;> rfl

theorem stepToIter_id (ops : SeedOps Seed Id R) (s : Int) (d : SeedDiskData Seed) :
    (stepToIter ops s d).1 = (ops.stepInPlace d._s_current s).2 := by
  simp only [stepToIter]
  split <;> rfl

theorem stepToIter_star (ops : SeedOps Seed Id R) (s : Int) (d : SeedDiskData Seed) :
    (stepToIter ops s d).2._s_star =
      if ops.ts (ops.stepInPlace d._s_current s).1 - ops.ts d._s_star > d._window then
        (ops.stepInPlace d._s_star s).1
      else d._s_star := by
  simp only [stepToIter]
  split <;> rfl

theorem stepToN_current (ops : SeedOps Seed Id R) (s : Int) (k : Nat)
    (p : Id × SeedDiskData Seed) :
    (stepToN ops s k p).2._s_current = stepN ops s k p.2._s_current := by
  induction k with
  | zero => rfl
  | succ k ih => rw [stepToN_succ, stepToIter_current, ih, stepN_succ]

theorem stepToN_window (ops : SeedOps Seed Id R) (s : Int) (k : Nat)
    (p : Id × SeedDiskData Seed) :
    (stepToN ops s k p).2._window = p.2._window := by
  induction k with
  | zero => rfl
  | succ k ih => rw [stepToN_succ, stepToIter_window, ih]

theorem stepToN_id (ops : SeedOps Seed Id R) (s : Int) (k : Nat) (p : Id × SeedDiskData Seed) :
    (stepToN ops s (k + 1) p).1 = (ops.stepInPlace (stepN ops s k p.2._s_current) s).2 := by
  rw [stepToN_succ, stepToIter_id, stepToN_current]

theorem stepToLoop_eq (ops : SeedOps Seed Id R) (now s : Int) (fuel k : Nat) (id : Id)
    (d : SeedDiskData Seed)
    (hleast : ∀ j, j < k → ops.ts (stepN ops s j d._s_current) < now)
    (hreach : ¬ ops.ts (stepN ops s k d._s_current) < now) :
    stepToLoop ops now s fuel id d =
      if k ≤ fuel then some (stepToN ops s k (id, d)) else none := by
  induction fuel generalizing k id d with
  | zero =>
    cases k with
    | zero =>
      have h0 : ¬ ops.ts d._s_current < now := hreach
      simp [stepToLoop, h0, stepToN]
    | succ k =>
      have h0 : ops.ts d._s_current < now := hleast 0 (Nat.succ_pos k)
      simp [stepToLoop, h0]
  | succ fuel ih =>
    cases k with
    | zero =>
      have h0 : ¬ ops.ts d._s_current < now := hreach
      simp [stepToLoop, h0, stepToN]
    | succ k =>
      have h0 : ops.ts d._s_current < now := hleast 0 (Nat.succ_pos k)
      have := ih k (stepToIter ops s d).1 (stepToIter ops s d).2
        (fun j hj => by
          rw [stepToIter_current]
          exact hleast (j + 1) (Nat.succ_lt_succ hj))
        (by rw [stepToIter_current]; exact hreach)
      simp only [stepToLoop, h0, if_true, this, Nat.succ_le_succ_iff, stepToN]

theorem changeWindowLoop_eq (ops : SeedOps Seed Id R) (s : Int) (fuel k : Nat)
    (d : SeedDiskData Seed)
    (hleast : ∀ j, j < k → ops.ts d._s_current - ops.ts (stepN ops s j d._s_star) > d._window)
    (hreach : ¬ ops.ts d._s_current - ops.ts (stepN ops s k d._s_star) > d._window) :
    changeWindowLoop ops s fuel d =
      if k ≤ fuel then some { d with _s_star := stepN ops s k d._s_star } else none := by
  induction fuel generalizing k d with
  | zero =>
    cases k with
    | zero =>
      have h0 : ¬ ops.ts d._s_current - ops.ts d._s_star > d._window := hreach
      simp [changeWindowLoop, h0, stepN]
    | succ k =>
      have h0 : ops.ts d._s_current - ops.ts d._s_star > d._window := hleast 0 (Nat.succ_pos k)
      simp [changeWindowLoop, h0]
  | succ fuel ih =>
    cases k with
    | zero =>
      have h0 : ¬ ops.ts d._s_current - ops.ts d._s_star > d._window := hreach
      simp [changeWindowLoop, h0, stepN]
    | succ k =>
      have h0 : ops.ts d._s_current - ops.ts d._s_star > d._window := hleast 0 (Nat.succ_pos k)
      have := ih k { d with _s_star := (ops.stepInPlace d._s_star s).1 }
        (fun j hj => hleast (j + 1) (Nat.succ_lt_succ hj)) hreach
      simp only [changeWindowLoop, h0, if_true, this, Nat.succ_le_succ_iff, stepN]

/-! ## The chain operations in closed form -/

theorem createNew_eq (ops : SeedOps Seed Id R) (hts : StepAddsTs ops) (r : R)
    (now s window : Int) (hs : 0 < s) (fuel : Nat) :
    SeedDiskData.createNew ops fuel r now s window =
      if ceilSteps (ops.ts (ops.safeRandomSeed r (round_down_timestamp now s - window)))
          (round_down_timestamp now s) s ≤ fuel then
        some { _s_star := ops.safeRandomSeed r (round_down_timestamp now s - window)
               _s_current := stepN ops s
                 (ceilSteps (ops.ts (ops.safeRandomSeed r (round_down_timestamp now s - window)))
                   (round_down_timestamp now s) s)
                 (ops.safeRandomSeed r (round_down_timestamp now s - window))
               _window := window }
      else none := by
  simp only [SeedDiskData.createNew]
  rw [createNewLoop_eq ops _ s fuel
    (ceilSteps (ops.ts (ops.safeRandomSeed r (round_down_timestamp now s - window)))
      (round_down_timestamp now s) s)]
  · by_cases hk : ceilSteps (ops.ts (ops.safeRandomSeed r (round_down_timestamp now s - window)))
        (round_down_timestamp now s) s ≤ fuel <;> simp [hk]
  · intro j hj
    rw [ts_stepN ops hts]
    exact ceilSteps_least _ _ s hs j hj
  · rw [ts_stepN ops hts]
    have := ceilSteps_reach (ops.ts (ops.safeRandomSeed r (round_down_timestamp now s - window)))
      (round_down_timestamp now s) s hs
    omega

theorem stepTo_noop (ops : SeedOps Seed Id R) (d : SeedDiskData Seed) (now s : Int) (fuel : Nat)
    (h : round_down_timestamp now s ≤ ops.ts d._s_current) :
    SeedDiskData.stepTo ops fuel d now s = some (ops.genId d._s_current, d) := by
  simp [SeedDiskData.stepTo, h]

theorem stepTo_eq (ops : SeedOps Seed Id R) (hts : StepAddsTs ops) (d : SeedDiskData Seed)
    (now s : Int) (hs : 0 < s) (hlt : ops.ts d._s_current < round_down_timestamp now s)
    (fuel : Nat) :
    SeedDiskData.stepTo ops fuel d now s =
      if ceilSteps (ops.ts d._s_current) (round_down_timestamp now s) s ≤ fuel then
        some (stepToN ops s (ceilSteps (ops.ts d._s_current) (round_down_timestamp now s) s)
          (ops.defaultId, d))
      else none := by
  have hn : ¬ ops.ts d._s_current ≥ round_down_timestamp now s := by omega
  simp only [SeedDiskData.stepTo, hn, if_false]
  apply stepToLoop_eq
  · intro j hj
    rw [ts_stepN ops hts]
    exact ceilSteps_least _ _ s hs j hj
  · rw [ts_stepN ops hts]
    have := ceilSteps_reach (ops.ts d._s_current) (round_down_timestamp now s) s hs
    omega

theorem changeWindow_eq (ops : SeedOps Seed Id R) (hts : StepAddsTs ops) (d : SeedDiskData Seed)
    (newWindow s : Int) (hs : 0 < s) (fuel : Nat) :
    SeedDiskData.changeWindow ops fuel d newWindow s =
      if ceilSteps (ops.ts d._s_star) (ops.ts d._s_current - newWindow) s ≤ fuel then
        some { _s_star := stepN ops s
                 (ceilSteps (ops.ts d._s_star) (ops.ts d._s_current - newWindow) s) d._s_star
               _s_current := d._s_current
               _window := newWindow }
      else none := by
  simp only [SeedDiskData.changeWindow]
  rw [changeWindowLoop_eq ops s fuel
    (ceilSteps (ops.ts d._s_star) (ops.ts d._s_current - newWindow) s)]
  · intro j hj
    simp only [ts_stepN ops hts]
    have := ceilSteps_least _ _ s hs j hj
    omega
  · simp only [ts_stepN ops hts]
    have := ceilSteps_reach (ops.ts d._s_star) (ops.ts d._s_current - newWindow) s hs
    omega

/-- Every call of `stepTo` returns, given enough fuel, and the result does not depend on the
fuel. -/
theorem stepTo_total (ops : SeedOps Seed Id R) (hts : StepAddsTs ops) (d : SeedDiskData Seed)
    (now s : Int) (hs : 0 < s) :
    ∃ (F : Nat) (p : Id × SeedDiskData Seed),
      ∀ fuel, F ≤ fuel → SeedDiskData.stepTo ops fuel d now s = some p := by
  rcases le_or_lt (round_down_timestamp now s) (ops.ts d._s_current) with h | h
  · exact ⟨0, _, fun fuel _ => stepTo_noop ops d now s fuel h⟩
  · refine ⟨ceilSteps (ops.ts d._s_current) (round_down_timestamp now s) s,
      stepToN ops s (ceilSteps (ops.ts d._s_current) (round_down_timestamp now s) s)
        (ops.defaultId, d), fun fuel hf => ?_⟩
    rw [stepTo_eq ops hts d now s hs h fuel, if_pos hf]

/-! ## Properties preserved by the loop of `stepTo` -/

theorem stepToLoop_preserves (ops : SeedOps Seed Id R) (now s : Int)
    (P : SeedDiskData Seed → Prop) (hP : ∀ d, P d → P (stepToIter ops s d).2)
    (fuel : Nat) (id : Id) (d : SeedDiskData Seed) (p : Id × SeedDiskData Seed)
    (hrun : stepToLoop ops now s fuel id d = some p) (hd : P d) : P p.2 := by
  induction fuel generalizing id d with
  | zero =>
    simp only [stepToLoop] at hrun
    split at hrun
    · cases hrun
    · cases hrun
      exact hd
  | succ fuel ih =>
    simp only [stepToLoop] at hrun
    split at hrun
    · exact ih _ _ hrun (hP d hd)
    · cases hrun
      exact hd

theorem stepTo_preserves (ops : SeedOps Seed Id R) (s : Int)
    (P : SeedDiskData Seed → Prop) (hP : ∀ d, P d → P (stepToIter ops s d).2)
    (fuel : Nat) (d : SeedDiskData Seed) (now : Int) (p : Id × SeedDiskData Seed)
    (hrun : SeedDiskData.stepTo ops fuel d now s = some p) (hd : P d) : P p.2 := by
  simp only [SeedDiskData.stepTo] at hrun
  split at hrun
  · cases hrun
    exact hd
  · exact stepToLoop_preserves ops _ s P hP fuel _ d p hrun hd

theorem stepToSeq_preserves (ops : SeedOps Seed Id R) (s : Int)
    (P : SeedDiskData Seed → Prop) (hP : ∀ d, P d → P (stepToIter ops s d).2)
    (fuel : Nat) (nows : List Int) (d : SeedDiskData Seed)
    (tr : List (Id × SeedDiskData Seed))
    (hrun : stepToSeq ops fuel s d nows = some tr) (hd : P d) : ∀ p ∈ tr, P p.2 := by
  induction nows generalizing d tr with
  | nil =>
    simp only [stepToSeq, Option.some.injEq] at hrun
    subst hrun
    simp
  | cons now rest ih =>
    simp only [stepToSeq] at hrun
    split at hrun
    · cases hrun
    · rename_i q hq
      split at hrun
      · cases hrun
      · rename_i l hl
        cases hrun
        have hq2 := stepTo_preserves ops s P hP fuel d now q hq hd
        intro p hp
        rcases List.mem_cons.mp hp with h | h
        · rw [h]
          exact hq2
        · exact ih q.2 l hl hq2 p h

theorem stepToSeq_total (ops : SeedOps Seed Id R) (hts : StepAddsTs ops) (s : Int) (hs : 0 < s)
    (nows : List Int) (d : SeedDiskData Seed) :
    ∃ (F : Nat) (tr : List (Id × SeedDiskData Seed)), tr.length = nows.length ∧
      ∀ fuel, F ≤ fuel → stepToSeq ops fuel s d nows = some tr := by
  induction nows generalizing d with
  | nil => exact ⟨0, [], rfl, fun _ _ => rfl⟩
  | cons now rest ih =>
    obtain ⟨F1, p, hp⟩ := stepTo_total ops hts d now s hs
    obtain ⟨F2, l, hlen, hl⟩ := ih p.2
    refine ⟨max F1 F2, p :: l, by simp [hlen], fun fuel hf => ?_⟩
    simp only [stepToSeq, hp fuel (le_trans (le_max_left _ _) hf),
      hl fuel (le_trans (le_max_right _ _) hf)]

theorem stepToIter_gap (ops : SeedOps Seed Id R) (hts : StepAddsTs ops) (s : Int)
    (d : SeedDiskData Seed) (h : d.gap ops ≤ d._window + s) :
    (stepToIter ops s d).2.gap ops ≤ (stepToIter ops s d).2._window + s := by
  simp only [SeedDiskData.gap] at h ⊢
  rw [stepToIter_window, stepToIter_current, stepToIter_star, hts]
  split
  · rw [hts]
    omega
  · omega

/-! ## The chain: window bound, idempotence, postconditions -/

theorem demoOps_stepAddsTs : StepAddsTs demoOps := fun _ _ => rfl

theorem demoOps_freshAnchored : FreshAnchored demoOps := fun _ _ => rfl

theorem demoOps_genIdOfStep : GenIdOfStep demoOps := fun _ _ => rfl

theorem createNew_total (ops : SeedOps Seed Id R) (hts : StepAddsTs ops) (r : R)
    (now s window : Int) (hs : 0 < s) :
    ∃ (F : Nat) (c0 : SeedDiskData Seed),
      ∀ fuel, F ≤ fuel → SeedDiskData.createNew ops fuel r now s window = some c0 :=
  ⟨ceilSteps (ops.ts (ops.safeRandomSeed r (round_down_timestamp now s - window)))
      (round_down_timestamp now s) s,
    { _s_star := ops.safeRandomSeed r (round_down_timestamp now s - window)
      _s_current := stepN ops s
        (ceilSteps (ops.ts (ops.safeRandomSeed r (round_down_timestamp now s - window)))
          (round_down_timestamp now s) s)
        (ops.safeRandomSeed r (round_down_timestamp now s - window))
      _window := window },
    fun fuel hf => by rw [createNew_eq ops hts r now s window hs fuel, if_pos hf]⟩

theorem createNew_gap (ops : SeedOps Seed Id R) (hts : StepAddsTs ops)
    (hfresh : FreshAnchored ops) (r : R) (now s window : Int) (hs : 0 < s) (hw : 0 ≤ window)
    (fuel : Nat) (c0 : SeedDiskData Seed)
    (h : SeedDiskData.createNew ops fuel r now s window = some c0) :
    c0.gap ops ≤ c0._window + s ∧ c0._window = window := by
  rw [createNew_eq ops hts r now s window hs fuel] at h
  split at h
  · cases h
    refine ⟨?_, rfl⟩
    have hf : ops.ts (ops.safeRandomSeed r (round_down_timestamp now s - window)) =
      round_down_timestamp now s - window := hfresh _ _
    simp only [SeedDiskData.gap, ts_stepN ops hts, hf]
    generalize hk : ceilSteps (round_down_timestamp now s - window) (round_down_timestamp now s) s
      = k
    cases k with
    | zero => simp; omega
    | succ k =>
      have := ceilSteps_least (round_down_timestamp now s - window) (round_down_timestamp now s)
        s hs k (by omega)
      push_cast
      linarith
  · cases h

/-- C1 (window bound).  Let `stepSize > 0` and `window ≥ 0`, and assume that one seed step
raises a seed's timestamp by exactly `stepSize` and that a fresh random seed carries the
timestamp it was asked for.  Start from the chain returned by `createNew(now0, stepSize,
window)` and apply `stepTo(now_i, stepSize)` for any finite list of query times.  Then the
chain returned by `createNew` and the chain after every call satisfy
`newest.ts - oldest.ts ≤ window + stepSize`.  The second part states that the run exists: with
enough fuel `createNew` and all the calls return, one result per query time. -/
theorem window_bound (ops : SeedOps Seed Id R) (hts : StepAddsTs ops)
    (hfresh : FreshAnchored ops) (r : R) (now0 stepSize window : Int) (hs : 0 < stepSize)
    (hw : 0 ≤ window) (nows : List Int) :
    (∀ (fuel0 fuel : Nat) (c0 : SeedDiskData Seed) (tr : List (Id × SeedDiskData Seed)),
        SeedDiskData.createNew ops fuel0 r now0 stepSize window = some c0 →
        stepToSeq ops fuel stepSize c0 nows = some tr →
        c0.gap ops ≤ window + stepSize ∧ ∀ p ∈ tr, p.2.gap ops ≤ window + stepSize) ∧
    ∃ (F : Nat) (c0 : SeedDiskData Seed) (tr : List (Id × SeedDiskData Seed)),
      tr.length = nows.length ∧
      ∀ fuel, F ≤ fuel →
        SeedDiskData.createNew ops fuel r now0 stepSize window = some c0 ∧
        stepToSeq ops fuel stepSize c0 nows = some tr := by
  constructor
  · intro fuel0 fuel c0 tr h0 hrun
    have hc0 := createNew_gap ops hts hfresh r now0 stepSize window hs hw fuel0 c0 h0
    have hall := stepToSeq_preserves ops stepSize
      (fun d => d.gap ops ≤ d._window + stepSize ∧ d._window = window)
      (fun d hd => ⟨stepToIter_gap ops hts stepSize d hd.1, by rw [stepToIter_window]; exact hd.2⟩)
      fuel nows c0 tr hrun hc0
    refine ⟨by rw [← hc0.2]; exact hc0.1, fun p hp => ?_⟩
    have := hall p hp
    rw [← this.2]
    exact this.1
  · obtain ⟨F0, c0, hc0⟩ := createNew_total ops hts r now0 stepSize window hs
    obtain ⟨F, tr, hlen, htr⟩ := stepToSeq_total ops hts stepSize hs nows c0
    exact ⟨max F F0, c0, tr, hlen, fun fuel hf =>
      ⟨hc0 fuel (le_trans (le_max_right _ _) hf), htr fuel (le_trans (le_max_left _ _) hf)⟩⟩

/-- Witness of C1 on the concrete seed operations: step size 100, window 1000, creation at
10000 and the query times 10250, 10050 (a clock that went backward) and 10999. -/
theorem window_bound_witness :
    StepAddsTs demoOps ∧ FreshAnchored demoOps ∧ (0 : Int) < 100 ∧ (0 : Int) ≤ 1000 ∧
    ((∀ (fuel0 fuel : Nat) (c0 : SeedDiskData DemoSeed) (tr : List (Nat × SeedDiskData DemoSeed)),
        SeedDiskData.createNew demoOps fuel0 5 10000 100 1000 = some c0 →
        stepToSeq demoOps fuel 100 c0 [10250, 10050, 10999] = some tr →
        c0.gap demoOps ≤ 1000 + 100 ∧ ∀ p ∈ tr, p.2.gap demoOps ≤ 1000 + 100) ∧
    ∃ (F : Nat) (c0 : SeedDiskData DemoSeed) (tr : List (Nat × SeedDiskData DemoSeed)),
      tr.length = [(10250 : Int), 10050, 10999].length ∧
      ∀ fuel, F ≤ fuel →
        SeedDiskData.createNew demoOps fuel 5 10000 100 1000 = some c0 ∧
        stepToSeq demoOps fuel 100 c0 [10250, 10050, 10999] = some tr) :=
  ⟨demoOps_stepAddsTs, demoOps_freshAnchored, by decide, by decide,
    window_bound demoOps demoOps_stepAddsTs demoOps_freshAnchored 5 10000 100 1000
      (by decide) (by decide) [10250, 10050, 10999]⟩

theorem stepToLoop_post (ops : SeedOps Seed Id R) (now s : Int) (fuel : Nat) (id : Id)
    (d : SeedDiskData Seed) (p : Id × SeedDiskData Seed)
    (hrun : stepToLoop ops now s fuel id d = some p) :
    ¬ ops.ts p.2._s_current < now ∧
    (ops.ts d._s_current < now →
      ∃ prev, p.2._s_current = (ops.stepInPlace prev s).1 ∧ p.1 = (ops.stepInPlace prev s).2) := by
  induction fuel generalizing id d with
  | zero =>
    simp only [stepToLoop] at hrun
    split at hrun
    · cases hrun
    · cases hrun
      rename_i h
      exact ⟨h, fun h2 => absurd h2 h⟩
  | succ fuel ih =>
    simp only [stepToLoop] at hrun
    split at hrun
    · have := ih _ _ hrun
      refine ⟨this.1, fun _ => ?_⟩
      by_cases hc : ops.ts (stepToIter ops s d).2._s_current < now
      · exact this.2 hc
      · cases fuel with
        | zero =>
          simp only [stepToLoop, hc, if_false, Option.some.injEq] at hrun
          rw [← hrun]
          exact ⟨d._s_current, stepToIter_current ops s d, stepToIter_id ops s d⟩
        | succ fuel =>
          simp only [stepToLoop, hc, if_false, Option.some.injEq] at hrun
          rw [← hrun]
          exact ⟨d._s_current, stepToIter_current ops s d, stepToIter_id ops s d⟩
    · cases hrun
      rename_i h
      exact ⟨h, fun h2 => absurd h2 h⟩

/-- C2 (in-bucket idempotence of `stepTo`).  (1) If `newest.ts ≥ round_down(now, stepSize)`,
which includes a clock that went backward, `stepTo(now, stepSize)` returns for every fuel,
leaves the chain (oldest, newest and window) unchanged and returns `genId()` of newest.
(2) When newest is the result of an advance, that identifier is the one the advance produced
(assuming that `genId` of a freshly advanced seed is the identifier the advance wrote).
(3) Whatever a `stepTo` call returned, a second call with the same `now` returns the same
identifier and the same chain.  (4) With `stepSize > 0` and steps that raise the timestamp by
`stepSize`, the first call does return, given enough fuel. -/
theorem stepTo_in_bucket (ops : SeedOps Seed Id R) (hts : StepAddsTs ops)
    (hgen : GenIdOfStep ops) (d : SeedDiskData Seed) (now stepSize : Int) (hs : 0 < stepSize) :
    (round_down_timestamp now stepSize ≤ ops.ts d._s_current →
      ∀ fuel, SeedDiskData.stepTo ops fuel d now stepSize = some (ops.genId d._s_current, d)) ∧
    (∀ (prev : Seed) (step : Int), d._s_current = (ops.stepInPlace prev step).1 →
      ops.genId d._s_current = (ops.stepInPlace prev step).2) ∧
    (∀ (fuel : Nat) (p : Id × SeedDiskData Seed),
      SeedDiskData.stepTo ops fuel d now stepSize = some p →
      ∀ fuel2, SeedDiskData.stepTo ops fuel2 p.2 now stepSize = some p) ∧
    (∃ (F : Nat) (p : Id × SeedDiskData Seed),
      ∀ fuel, F ≤ fuel → SeedDiskData.stepTo ops fuel d now stepSize = some p) := by
  refine ⟨fun h fuel => stepTo_noop ops d now stepSize fuel h, ?_, ?_,
    stepTo_total ops hts d now stepSize hs⟩
  · intro prev step h
    rw [h]
    exact hgen prev step
  · intro fuel p hrun fuel2
    by_cases h : round_down_timestamp now stepSize ≤ ops.ts d._s_current
    · rw [stepTo_noop ops d now stepSize fuel h] at hrun
      cases hrun
      exact stepTo_noop ops d now stepSize fuel2 h
    · have hn : ¬ ops.ts d._s_current ≥ round_down_timestamp now stepSize := h
      simp only [SeedDiskData.stepTo, hn, if_false] at hrun
      obtain ⟨h1, h2⟩ := stepToLoop_post ops _ stepSize fuel _ d p hrun
      obtain ⟨prev, hp1, hp2⟩ := h2 (by omega)
      rw [stepTo_noop ops p.2 now stepSize fuel2 (by omega), hp1, hgen, ← hp2]

/-- Witness of C2 on the concrete seed operations: the chain with oldest at 9200 and newest at
10200, queried at 10250 with step size 100. -/
theorem stepTo_in_bucket_witness :
    StepAddsTs demoOps ∧ GenIdOfStep demoOps ∧ (0 : Int) < 100 ∧
    SeedDiskData.stepTo demoOps 0 ⟨⟨9200, 67⟩, ⟨10200, 44⟩, 1000⟩ 10250 100 =
      some (1044, ⟨⟨9200, 67⟩, ⟨10200, 44⟩, 1000⟩) :=
  ⟨demoOps_stepAddsTs, demoOps_genIdOfStep, by decide,
    (stepTo_in_bucket demoOps demoOps_stepAddsTs demoOps_genIdOfStep
      ⟨⟨9200, 67⟩, ⟨10200, 44⟩, 1000⟩ 10250 100 (by decide)).1 (by decide) 0⟩

theorem ceilSteps_aligned (t n s : Int) (hs : 0 < s) (ht : s ∣ t) (hn : s ∣ n) (hlt : t < n) :
    t + (ceilSteps t n s : Int) * s = n := by
  obtain ⟨a, ha⟩ := ht
  obtain ⟨b, hb⟩ := hn
  have hab : a < b := by
    by_contra hc
    have : s * b ≤ s * a := mul_le_mul_of_nonneg_left (by omega) (le_of_lt hs)
    omega
  have hk : (b - a).toNat = ceilSteps t n s := by
    apply ceilSteps_unique t n s hs
    · rw [Int.toNat_of_nonneg (by omega), ha, hb]
      linarith
    · intro j hj
      have hj2 : (j : Int) + 1 ≤ b - a := by omega
      have : ((j : Int) + 1) * s ≤ (b - a) * s := mul_le_mul_of_nonneg_right hj2 (le_of_lt hs)
      rw [ha, hb]
      linarith
  rw [← hk, Int.toNat_of_nonneg (by omega), ha, hb]
  ring

/-- C3 (postcondition of `stepTo` when it advances).  Let `stepSize > 0`, let one seed step
raise the timestamp by exactly `stepSize`, and let `newest.ts < n` for
`n = round_down(now, stepSize)`.  With `k = ceil((n - newest.ts) / stepSize)`:
`k ≥ 1`; `stepTo(now, stepSize)` returns exactly when the fuel allows `k` iterations, and its
result is the state after `k` iterations of the loop body; newest has then been advanced
exactly `k` times, `k` being the least count that reaches `n` (so `newest.ts ≥ n`, and
`newest.ts = n` when `newest.ts` was a multiple of `stepSize`); the window is unchanged; the
returned identifier is the one written by the `k`-th advance of newest; and in each iteration
oldest is advanced once exactly when, after the advance of newest, the gap
`newest.ts - oldest.ts` exceeds the window. -/
theorem stepTo_advance (ops : SeedOps Seed Id R) (hts : StepAddsTs ops) (d : SeedDiskData Seed)
    (now stepSize : Int) (hs : 0 < stepSize)
    (hlt : ops.ts d._s_current < round_down_timestamp now stepSize) :
    0 < ceilSteps (ops.ts d._s_current) (round_down_timestamp now stepSize) stepSize ∧
    (∀ fuel, SeedDiskData.stepTo ops fuel d now stepSize =
      if ceilSteps (ops.ts d._s_current) (round_down_timestamp now stepSize) stepSize ≤ fuel then
        some (stepToN ops stepSize
          (ceilSteps (ops.ts d._s_current) (round_down_timestamp now stepSize) stepSize)
          (ops.defaultId, d))
      else none) ∧
    (∀ j, (stepToN ops stepSize j (ops.defaultId, d)).2._s_current =
        stepN ops stepSize j d._s_current ∧
      (stepToN ops stepSize j (ops.defaultId, d)).2._window = d._window ∧
      (stepToN ops stepSize (j + 1) (ops.defaultId, d)).1 =
        (ops.stepInPlace (stepN ops stepSize j d._s_current) stepSize).2 ∧
      (stepToN ops stepSize (j + 1) (ops.defaultId, d)).2._s_star =
        if ops.ts (stepN ops stepSize (j + 1) d._s_current) -
            ops.ts (stepToN ops stepSize j (ops.defaultId, d)).2._s_star > d._window then
          (ops.stepInPlace (stepToN ops stepSize j (ops.defaultId, d)).2._s_star stepSize).1
        else (stepToN ops stepSize j (ops.defaultId, d)).2._s_star) ∧
    round_down_timestamp now stepSize ≤ ops.ts (stepN ops stepSize
      (ceilSteps (ops.ts d._s_current) (round_down_timestamp now stepSize) stepSize)
      d._s_current) ∧
    (∀ j, j < ceilSteps (ops.ts d._s_current) (round_down_timestamp now stepSize) stepSize →
      ops.ts (stepN ops stepSize j d._s_current) < round_down_timestamp now stepSize) ∧
    (stepSize ∣ ops.ts d._s_current →
      ops.ts (stepN ops stepSize
        (ceilSteps (ops.ts d._s_current) (round_down_timestamp now stepSize) stepSize)
        d._s_current) = round_down_timestamp now stepSize) := by
  refine ⟨ceilSteps_pos _ _ _ hs hlt, stepTo_eq ops hts d now stepSize hs hlt, ?_, ?_, ?_, ?_⟩
  · intro j
    refine ⟨stepToN_current ops stepSize j _, stepToN_window ops stepSize j _,
      stepToN_id ops stepSize j _, ?_⟩
    rw [stepToN_succ, stepToIter_star, stepToN_current, stepToN_window, ← stepN_succ]
  · rw [ts_stepN ops hts]
    exact ceilSteps_reach _ _ _ hs
  · intro j hj
    rw [ts_stepN ops hts]
    exact ceilSteps_least _ _ _ hs j hj
  · intro hdvd
    rw [ts_stepN ops hts]
    exact ceilSteps_aligned _ _ _ hs hdvd (round_down_dvd now stepSize) hlt

/-- Witness of C3: from `oldest.ts = 9000`, `newest.ts = 10000`, `window = 1000`, the call
`stepTo(10250, 100)` takes two iterations and ends with `newest.ts = 10200` and
`oldest.ts = 9200`. -/
theorem stepTo_advance_witness :
    StepAddsTs demoOps ∧ (0 : Int) < 100 ∧
    demoOps.ts (⟨⟨9000, 5⟩, ⟨10000, 54⟩, 1000⟩ : SeedDiskData DemoSeed)._s_current <
      round_down_timestamp 10250 100 ∧
    ceilSteps 10000 (round_down_timestamp 10250 100) 100 = 2 ∧
    SeedDiskData.stepTo demoOps 2 ⟨⟨9000, 5⟩, ⟨10000, 54⟩, 1000⟩ 10250 100 =
      some (1044, ⟨⟨9200, 67⟩, ⟨10200, 44⟩, 1000⟩) ∧
    SeedDiskData.stepTo demoOps 1 ⟨⟨9000, 5⟩, ⟨10000, 54⟩, 1000⟩ 10250 100 = none ∧
    0 < ceilSteps (demoOps.ts (⟨⟨9000, 5⟩, ⟨10000, 54⟩, 1000⟩ : SeedDiskData DemoSeed)._s_current)
      (round_down_timestamp 10250 100) 100 :=
  ⟨demoOps_stepAddsTs, by decide, by decide, by decide, by decide, by decide,
    (stepTo_advance demoOps demoOps_stepAddsTs ⟨⟨9000, 5⟩, ⟨10000, 54⟩, 1000⟩ 10250 100
      (by decide) (by decide)).1⟩

/-- C4 (postcondition of `createNew`).  Let `stepSize > 0` and `window ≥ 0`, and let one seed
step raise the timestamp by exactly `stepSize`.  With `n = round_down(now, stepSize)`,
`oldest = safeRandomSeed(n - window)` and `k = ceil((n - oldest.ts) / stepSize)`:
`createNew(now, stepSize, window)` returns exactly when the fuel allows `k` iterations, and
then it returns the chain with window `window`, oldest seed `oldest` and newest seed `oldest`
advanced `k` times; `k` is the least number of steps after which the timestamp reaches `n`.
When the fresh seed carries the timestamp it was asked for, `oldest.ts = n - window` and
`k = ceil(window / stepSize)`. -/
theorem createNew_post (ops : SeedOps Seed Id R) (hts : StepAddsTs ops) (r : R)
    (now stepSize window : Int) (hs : 0 < stepSize) (hw : 0 ≤ window) :
    (∀ fuel, SeedDiskData.createNew ops fuel r now stepSize window =
      if ceilSteps (ops.ts (ops.safeRandomSeed r (round_down_timestamp now stepSize - window)))
          (round_down_timestamp now stepSize) stepSize ≤ fuel then
        some { _s_star := ops.safeRandomSeed r (round_down_timestamp now stepSize - window)
               _s_current := stepN ops stepSize
                 (ceilSteps
                   (ops.ts (ops.safeRandomSeed r (round_down_timestamp now stepSize - window)))
                   (round_down_timestamp now stepSize) stepSize)
                 (ops.safeRandomSeed r (round_down_timestamp now stepSize - window))
               _window := window }
      else none) ∧
    round_down_timestamp now stepSize ≤ ops.ts (stepN ops stepSize
      (ceilSteps (ops.ts (ops.safeRandomSeed r (round_down_timestamp now stepSize - window)))
        (round_down_timestamp now stepSize) stepSize)
      (ops.safeRandomSeed r (round_down_timestamp now stepSize - window))) ∧
    (∀ j, j < ceilSteps
        (ops.ts (ops.safeRandomSeed r (round_down_timestamp now stepSize - window)))
        (round_down_timestamp now stepSize) stepSize →
      ops.ts (stepN ops stepSize j
        (ops.safeRandomSeed r (round_down_timestamp now stepSize - window))) <
        round_down_timestamp now stepSize) ∧
    (FreshAnchored ops →
      ops.ts (ops.safeRandomSeed r (round_down_timestamp now stepSize - window)) =
        round_down_timestamp now stepSize - window ∧
      ceilSteps (ops.ts (ops.safeRandomSeed r (round_down_timestamp now stepSize - window)))
        (round_down_timestamp now stepSize) stepSize = ceilSteps 0 window stepSize) := by
  refine ⟨createNew_eq ops hts r now stepSize window hs, ?_, ?_, ?_⟩
  · rw [ts_stepN ops hts]
    exact ceilSteps_reach _ _ _ hs
  · intro j hj
    rw [ts_stepN ops hts]
    exact ceilSteps_least _ _ _ hs j hj
  · intro hfresh
    have hf : ops.ts (ops.safeRandomSeed r (round_down_timestamp now stepSize - window)) =
      round_down_timestamp now stepSize - window := hfresh _ _
    refine ⟨hf, ?_⟩
    rw [hf]
    unfold ceilSteps
    congr 2
    have := hw
    ring

/-- Witness of C4: `stepSize = 100`, `window = 1000`, `now = 10000` gives `oldest.ts = 9000` and
`newest.ts = 10000` after exactly ten steps (nine iterations do not suffice). -/
theorem createNew_post_witness :
    StepAddsTs demoOps ∧ (0 : Int) < 100 ∧ (0 : Int) ≤ 1000 ∧
    ceilSteps (demoOps.ts (demoOps.safeRandomSeed 5 (round_down_timestamp 10000 100 - 1000)))
      (round_down_timestamp 10000 100) 100 = 10 ∧
    SeedDiskData.createNew demoOps 10 5 10000 100 1000 =
      some ⟨⟨9000, 5⟩, ⟨10000, 54⟩, 1000⟩ ∧
    SeedDiskData.createNew demoOps 9 5 10000 100 1000 = none ∧
    round_down_timestamp 10000 100 ≤ demoOps.ts (stepN demoOps 100
      (ceilSteps (demoOps.ts (demoOps.safeRandomSeed 5 (round_down_timestamp 10000 100 - 1000)))
        (round_down_timestamp 10000 100) 100)
      (demoOps.safeRandomSeed 5 (round_down_timestamp 10000 100 - 1000))) :=
  ⟨demoOps_stepAddsTs, by decide, by decide, by decide, by decide, by decide,
    (createNew_post demoOps demoOps_stepAddsTs 5 10000 100 1000 (by decide) (by decide)).2.1⟩

/-- C5 (postcondition of the chain's `changeWindow`).  Let `stepSize > 0` and let one seed step
raise the timestamp by exactly `stepSize`.  With
`j = ceil((newest.ts - newWindow - oldest.ts) / stepSize)` (and `j = 0` when the gap is already
within `newWindow`): `changeWindow(newWindow, stepSize)` returns exactly when the fuel allows
`j` iterations, and then the window is `newWindow`, newest is unchanged and oldest has been
advanced `j` times; `j` is the least number of advances after which
`newest.ts - oldest.ts ≤ newWindow`. -/
theorem changeWindow_post (ops : SeedOps Seed Id R) (hts : StepAddsTs ops)
    (d : SeedDiskData Seed) (newWindow stepSize : Int) (hs : 0 < stepSize) :
    (∀ fuel, SeedDiskData.changeWindow ops fuel d newWindow stepSize =
      if ceilSteps (ops.ts d._s_star) (ops.ts d._s_current - newWindow) stepSize ≤ fuel then
        some { _s_star := stepN ops stepSize
                 (ceilSteps (ops.ts d._s_star) (ops.ts d._s_current - newWindow) stepSize)
                 d._s_star
               _s_current := d._s_current
               _window := newWindow }
      else none) ∧
    ops.ts d._s_current - ops.ts (stepN ops stepSize
      (ceilSteps (ops.ts d._s_star) (ops.ts d._s_current - newWindow) stepSize) d._s_star)
      ≤ newWindow ∧
    (∀ i, i < ceilSteps (ops.ts d._s_star) (ops.ts d._s_current - newWindow) stepSize →
      ops.ts d._s_current - ops.ts (stepN ops stepSize i d._s_star) > newWindow) ∧
    (ops.ts d._s_current - ops.ts d._s_star ≤ newWindow →
      ceilSteps (ops.ts d._s_star) (ops.ts d._s_current - newWindow) stepSize = 0) := by
  refine ⟨changeWindow_eq ops hts d newWindow stepSize hs, ?_, ?_, ?_⟩
  · rw [ts_stepN ops hts]
    have := ceilSteps_reach (ops.ts d._s_star) (ops.ts d._s_current - newWindow) stepSize hs
    omega
  · intro i hi
    rw [ts_stepN ops hts]
    have := ceilSteps_least _ _ stepSize hs i hi
    omega
  · intro h
    exact ceilSteps_eq_zero _ _ _ hs (by omega)

/-- Witness of C5: from `oldest.ts = 9200`, `newest.ts = 10200`, the call
`changeWindow(500, 100)` advances oldest five times and ends with `oldest.ts = 9700`. -/
theorem changeWindow_post_witness :
    StepAddsTs demoOps ∧ (0 : Int) < 100 ∧
    ceilSteps 9200 (10200 - 500) 100 = 5 ∧
    SeedDiskData.changeWindow demoOps 5 ⟨⟨9200, 67⟩, ⟨10200, 44⟩, 1000⟩ 500 100 =
      some ⟨⟨9700, 40⟩, ⟨10200, 44⟩, 500⟩ ∧
    SeedDiskData.changeWindow demoOps 4 ⟨⟨9200, 67⟩, ⟨10200, 44⟩, 1000⟩ 500 100 = none ∧
    demoOps.ts (⟨⟨9200, 67⟩, ⟨10200, 44⟩, 1000⟩ : SeedDiskData DemoSeed)._s_current -
      demoOps.ts (stepN demoOps 100
        (ceilSteps (demoOps.ts (⟨⟨9200, 67⟩, ⟨10200, 44⟩, 1000⟩ : SeedDiskData DemoSeed)._s_star)
          (demoOps.ts (⟨⟨9200, 67⟩, ⟨10200, 44⟩, 1000⟩ : SeedDiskData DemoSeed)._s_current - 500)
          100)
        (⟨⟨9200, 67⟩, ⟨10200, 44⟩, 1000⟩ : SeedDiskData DemoSeed)._s_star) ≤ 500 :=
  ⟨demoOps_stepAddsTs, by decide, by decide, by decide, by decide,
    (changeWindow_post demoOps demoOps_stepAddsTs ⟨⟨9200, 67⟩, ⟨10200, 44⟩, 1000⟩ 500 100
      (by decide)).2.1⟩

/-! ## Persistence -/

theorem digitChar_toNat (m : Nat) (hm : m < 10) :
    (Nat.digitChar m).toNat - 48 = m ∧ (Nat.digitChar m).isDigit = true ∧
      isspace (Nat.digitChar m) = false ∧ Nat.digitChar m ≠ '-' ∧ Nat.digitChar m ≠ '+' := by
  interval_cases m <;> decide

theorem toDigitsCore_acc (fuel n : Nat) (ds : List Char) :
    Nat.toDigitsCore 10 fuel n ds = Nat.toDigitsCore 10 fuel n [] ++ ds := by
  induction fuel generalizing n ds with
  | zero => simp [Nat.toDigitsCore]
  | succ fuel ih =>
    simp only [Nat.toDigitsCore]
    split
    · simp
    · rw [ih (n / 10) (Nat.digitChar (n % 10) :: ds), ih (n / 10) [Nat.digitChar (n % 10)]]
      simp

theorem toDigitsCore_spec (fuel n : Nat) (h : n < fuel) :
    digitsValue (Nat.toDigitsCore 10 fuel n []) = n ∧
    (∀ c ∈ Nat.toDigitsCore 10 fuel n [], c.isDigit = true) ∧
    Nat.toDigitsCore 10 fuel n [] ≠ [] := by
  induction fuel generalizing n with
  | zero => omega
  | succ fuel ih =>
    have hd := digitChar_toNat (n % 10) (Nat.mod_lt n (by decide))
    simp only [Nat.toDigitsCore]
    split
    · rename_i h0
      refine ⟨?_, ?_, by simp⟩
      · simp only [digitsValue, List.foldl_cons, List.foldl_nil, hd.1]
        omega
      · intro c hc
        rw [List.mem_singleton.mp hc]
        exact hd.2.1
    · rename_i h0
      obtain ⟨h1, h2, _⟩ := ih (n / 10) (by omega)
      rw [toDigitsCore_acc]
      refine ⟨?_, ?_, by simp⟩
      · simp only [digitsValue] at h1
        simp only [digitsValue, List.foldl_append, List.foldl_cons, List.foldl_nil, h1, hd.1]
        omega
      · intro c hc
        rcases List.mem_append.mp hc with hc | hc
        · exact h2 c hc
        · rw [List.mem_singleton.mp hc]
          exact hd.2.1

theorem toDigits_spec (n : Nat) :
    digitsValue (Nat.toDigits 10 n) = n ∧ (∀ c ∈ Nat.toDigits 10 n, c.isDigit = true) ∧
    Nat.toDigits 10 n ≠ [] :=
  toDigitsCore_spec (n + 1) n (Nat.lt_succ_self n)

theorem isDigit_facts (c : Char) (h : c.isDigit = true) :
    isspace c = false ∧ c ≠ '-' ∧ c ≠ '+' ∧ c ≠ '\n' := by
  have h1 : 48 ≤ c.toNat ∧ c.toNat ≤ 57 := by
    simpa [Char.isDigit, Char.toNat, UInt32.le_def, Fin.le_def] using h
  refine ⟨?_, ?_, ?_, ?_⟩
  · simp [isspace]
    omega
  · rintro rfl
    revert h1
    decide
  · rintro rfl
    revert h1
    decide
  · rintro rfl
    revert h1
    decide

theorem takeWhile_all (p : Char → Bool) (l : List Char) (h : ∀ c ∈ l, p c = true) :
    l.takeWhile p = l := by
  induction l with
  | nil => rfl
  | cons a l ih =>
    simp only [List.takeWhile, h a (List.mem_cons_self a l)]
    rw [ih (fun c hc => h c (List.mem_cons_of_mem a hc))]

theorem stoll_digits (ds : List Char) (hne : ds ≠ []) (hall : ∀ c ∈ ds, c.isDigit = true) :
    stoll ds =
      if 2 ^ 63 ≤ (digitsValue ds : Int) then Except.error (Thrown.val "std::out_of_range")
      else Except.ok (digitsValue ds : Int) := by
  cases ds with
  | nil => exact absurd rfl hne
  | cons c l =>
    have hc := isDigit_facts c (hall c (List.mem_cons_self c l))
    have htw : List.takeWhile Char.isDigit (c :: l) = c :: l := takeWhile_all _ _ hall
    have hlo : ¬ ((digitsValue (c :: l) : Int) < -(2 ^ 63)) := by
      have : (0 : Int) ≤ (digitsValue (c :: l) : Int) := Int.ofNat_nonneg _
      omega
    simp only [stoll, List.dropWhile, hc.1, List.head?_cons, Option.some.injEq, hc.2.1,
      hc.2.2.1, or_self, if_false, htw, reduceCtorEq, hlo, false_or]

theorem stoll_neg_digits (ds : List Char) (hne : ds ≠ []) (hall : ∀ c ∈ ds, c.isDigit = true) :
    stoll ('-' :: ds) =
      if -(digitsValue ds : Int) < -(2 ^ 63) then Except.error (Thrown.val "std::out_of_range")
      else Except.ok (-(digitsValue ds : Int)) := by
  have hsp : isspace '-' = false := by decide
  have htw : List.takeWhile Char.isDigit ds = ds := takeWhile_all _ _ hall
  have hhi : ¬ ((2 : Int) ^ 63 ≤ -(digitsValue ds : Int)) := by
    have : (0 : Int) ≤ (digitsValue ds : Int) := Int.ofNat_nonneg _
    omega
  simp only [stoll, List.dropWhile, hsp, List.head?_cons, true_or, if_true, List.tail_cons, htw,
    hne, if_false, hhi, or_false]

/-- Reading back a printed `int64_t` gives the number. -/
theorem stoll_printInt64 (w : Int) (hlo : -(2 ^ 63) ≤ w) (hhi : w < 2 ^ 63) :
    stoll (printInt64 w) = Except.ok w := by
  obtain ⟨hv, hdig, hne⟩ := toDigits_spec w.natAbs
  by_cases hneg : w < 0
  · have hw : (w.natAbs : Int) = -w := by omega
    simp only [printInt64, hneg, if_true]
    rw [stoll_neg_digits _ hne hdig, hv, hw, if_neg (by omega)]
    simp
  · have hw : (w.natAbs : Int) = w := by omega
    simp only [printInt64, hneg, if_false]
    rw [stoll_digits _ hne hdig, hv, hw, if_neg (by omega)]

theorem getline_line (l rest : List Char) (h : '\n' ∉ l) :
    getline (l ++ '\n' :: rest) = some (l, rest) := by
  have htake : ∀ l : List Char, '\n' ∉ l →
      (l ++ '\n' :: rest).takeWhile (fun c => c != '\n') = l ∧
      (l ++ '\n' :: rest).dropWhile (fun c => c != '\n') = '\n' :: rest := by
    intro l
    induction l with
    | nil => intro _; simp [List.takeWhile, List.dropWhile]
    | cons a l ih =>
      intro hl
      have ha : a ≠ '\n' := fun e => hl (by rw [e]; exact List.mem_cons_self _ _)
      have := ih (fun hm => hl (List.mem_cons_of_mem a hm))
      have hb : (a != '\n') = true := by simpa using ha
      simp only [List.cons_append, List.takeWhile, List.dropWhile, hb]
      exact ⟨congrArg (List.cons a) this.1, this.2⟩
  obtain ⟨h1, h2⟩ := htake l h
  cases l with
  | nil =>
    simp only [List.nil_append] at h1 h2 ⊢
    simp only [getline, h1, h2, List.drop_one, List.tail_cons]
  | cons a l =>
    simp only [List.cons_append] at h1 h2 ⊢
    simp only [getline, h1, h2, List.drop_one, List.tail_cons]

theorem printInt64_no_newline (w : Int) : '\n' ∉ printInt64 w := by
  obtain ⟨_, hdig, _⟩ := toDigits_spec w.natAbs
  have hd : '\n' ∉ Nat.toDigits 10 w.natAbs := fun hm =>
    (isDigit_facts _ (hdig _ hm)).2.2.2 rfl
  unfold printInt64
  split
  · intro hm
    rcases List.mem_cons.mp hm with h | h
    · exact absurd h (by decide)
    · exact hd h
  · exact hd

theorem saveTo_files_location (ops : SeedOps Seed Id R) (d : SeedDiskData Seed) (w : World)
    (location : String) : (d.saveTo ops w location).files location = some (d.record ops) := by
  simp [SeedDiskData.saveTo]

theorem readRecord_record (ops : SeedOps Seed Id R) (d : SeedDiskData Seed)
    (hlo : -(2 ^ 63) ≤ d._window) (hhi : d._window < 2 ^ 63)
    (hline1 : '\n' ∉ ops.serialize d._s_star)
    (hparse1 : ops.parse (ops.serialize d._s_star) = Except.ok d._s_star)
    (hline2 : '\n' ∉ ops.serialize d._s_current)
    (hparse2 : ops.parse (ops.serialize d._s_current) = Except.ok d._s_current) :
    SeedDiskData.readRecord ops (some (d.record ops)) = Except.ok d := by
  simp only [SeedDiskData.readRecord, SeedDiskData.record,
    getline_line _ _ (printInt64_no_newline d._window), stoll_printInt64 _ hlo hhi,
    getline_line _ _ hline1, hparse1, getline_line _ _ hline2, hparse2]

/-- C6 (persistence round trip).  Let the window of the chain lie in the `int64_t` range, and
let the serialization of each of its two seeds be a single line (no newline character) that
`Seed::parse` maps back to the seed.  Then after `saveTo(location)` the file at `location`
holds exactly three lines in this order: the window in decimal, the serialized oldest seed,
the serialized newest seed; and `loadFrom(location)` on it returns the same chain (same
window, same oldest, same newest). -/
theorem save_load_roundtrip (ops : SeedOps Seed Id R) (d : SeedDiskData Seed) (w : World)
    (location : String) (hlo : -(2 ^ 63) ≤ d._window) (hhi : d._window < 2 ^ 63)
    (hline1 : '\n' ∉ ops.serialize d._s_star)
    (hparse1 : ops.parse (ops.serialize d._s_star) = Except.ok d._s_star)
    (hline2 : '\n' ∉ ops.serialize d._s_current)
    (hparse2 : ops.parse (ops.serialize d._s_current) = Except.ok d._s_current) :
    (d.saveTo ops w location).files location =
      some (printInt64 d._window ++ '\n' :: (ops.serialize d._s_star ++ '\n' ::
        (ops.serialize d._s_current ++ ['\n']))) ∧
    '\n' ∉ printInt64 d._window ∧
    (SeedDiskData.loadFrom ops (d.saveTo ops w location) location).1 = Except.ok d := by
  refine ⟨saveTo_files_location ops d w location, printInt64_no_newline _, ?_⟩
  simp only [SeedDiskData.loadFrom, saveTo_files_location]
  exact readRecord_record ops d hlo hhi hline1 hparse1 hline2 hparse2

/-- Witness of C6: the chain with oldest at 9000, newest at 10000 and window 1000 is saved to
`seeds.txt` in an empty file system; the file then reads `1000`, `9000,5`, `10000,54`. -/
theorem save_load_roundtrip_witness :
    (-(2 ^ 63) ≤ (1000 : Int) ∧ (1000 : Int) < 2 ^ 63) ∧
    '\n' ∉ demoOps.serialize ⟨9000, 5⟩ ∧
    demoOps.parse (demoOps.serialize ⟨9000, 5⟩) = Except.ok ⟨9000, 5⟩ ∧
    '\n' ∉ demoOps.serialize ⟨10000, 54⟩ ∧
    demoOps.parse (demoOps.serialize ⟨10000, 54⟩) = Except.ok ⟨10000, 54⟩ ∧
    ((SeedDiskData.saveTo demoOps ⟨⟨9000, 5⟩, ⟨10000, 54⟩, 1000⟩ ⟨fun _ => none, []⟩
        "seeds.txt").files "seeds.txt" = some "1000\n9000,5\n10000,54\n".data) ∧
    (SeedDiskData.loadFrom demoOps
      (SeedDiskData.saveTo demoOps ⟨⟨9000, 5⟩, ⟨10000, 54⟩, 1000⟩ ⟨fun _ => none, []⟩
        "seeds.txt") "seeds.txt").1 = Except.ok ⟨⟨9000, 5⟩, ⟨10000, 54⟩, 1000⟩ :=
  ⟨by decide, by decide, rfl, by decide, rfl,
    (save_load_roundtrip demoOps ⟨⟨9000, 5⟩, ⟨10000, 54⟩, 1000⟩ ⟨fun _ => none, []⟩
      "seeds.txt" (by decide) (by decide) (by decide) rfl (by decide) rfl).1,
    (save_load_roundtrip demoOps ⟨⟨9000, 5⟩, ⟨10000, 54⟩, 1000⟩ ⟨fun _ => none, []⟩
      "seeds.txt" (by decide) (by decide) (by decide) rfl (by decide) rfl).2.2⟩

/-! ## The store -/

theorem getCurrentId_timestamp (ops : SeedOps Seed Id R) (fuel : Nat) (st : SeedStore Id)
    (w : World) (t : Int) :
    (SeedStore.getCurrentId ops fuel st w t).2.1._timestamp = st._timestamp := by
  simp only [SeedStore.getCurrentId, SeedDiskData.loadFrom]
  split
  · rfl
  · cases SeedDiskData.readRecord ops (w.files st._fileName) with
    | error e => rfl
    | ok sdd =>
      simp only
      cases sdd.stepTo ops fuel (st.get_rounded_timestamp t) st._stepSize with
      | none => rfl
      | some p => rfl

/-- A call of `getCurrentId` whose rounded time differs from `_timestamp` loads the record. -/
theorem getCurrentId_miss_loads (ops : SeedOps Seed Id R) (fuel : Nat) (st : SeedStore Id)
    (w : World) (t : Int) (h : st.get_rounded_timestamp t ≠ st._timestamp) :
    ∃ rest, (SeedStore.getCurrentId ops fuel st w t).2.2.log =
      w.log ++ IOEvent.load st._fileName :: rest := by
  simp only [SeedStore.getCurrentId, SeedDiskData.loadFrom, h, if_false]
  cases SeedDiskData.readRecord ops (w.files st._fileName) with
  | error e => exact ⟨[], rfl⟩
  | ok sdd =>
    simp only
    cases sdd.stepTo ops fuel (st.get_rounded_timestamp t) st._stepSize with
    | none => exact ⟨[], rfl⟩
    | some p => exact ⟨[IOEvent.save st._fileName], by simp [SeedDiskData.saveTo]⟩

/-- The cache of `getCurrentId` never becomes valid: since no call stores the rounded time in
`_timestamp`, a second call in the same step bucket misses again and loads again. -/
theorem getCurrentId_second_call_loads (ops : SeedOps Seed Id R) (fuel1 fuel2 : Nat)
    (st : SeedStore Id) (w : World) (t1 t2 : Int)
    (hsame : st.get_rounded_timestamp t1 = st.get_rounded_timestamp t2)
    (hmiss : st.get_rounded_timestamp t1 ≠ st._timestamp) :
    ∃ rest, (SeedStore.getCurrentId ops fuel2 (SeedStore.getCurrentId ops fuel1 st w t1).2.1
        (SeedStore.getCurrentId ops fuel1 st w t1).2.2 t2).2.2.log =
      (SeedStore.getCurrentId ops fuel1 st w t1).2.2.log ++ IOEvent.load st._fileName :: rest := by
  have hfile : (SeedStore.getCurrentId ops fuel1 st w t1).2.1._fileName = st._fileName := by
    simp only [SeedStore.getCurrentId, SeedDiskData.loadFrom]
    split
    · rfl
    · cases SeedDiskData.readRecord ops (w.files st._fileName) with
      | error e => rfl
      | ok sdd =>
        simp only
        cases sdd.stepTo ops fuel1 (st.get_rounded_timestamp t1) st._stepSize with
        | none => rfl
        | some p => rfl
  have hstep : (SeedStore.getCurrentId ops fuel1 st w t1).2.1._stepSize = st._stepSize := by
    simp only [SeedStore.getCurrentId, SeedDiskData.loadFrom]
    split
    · rfl
    · cases SeedDiskData.readRecord ops (w.files st._fileName) with
      | error e => rfl
      | ok sdd =>
        simp only
        cases sdd.stepTo ops fuel1 (st.get_rounded_timestamp t1) st._stepSize with
        | none => rfl
        | some p => rfl
  have hmiss2 : (SeedStore.getCurrentId ops fuel1 st w t1).2.1.get_rounded_timestamp t2 ≠
      (SeedStore.getCurrentId ops fuel1 st w t1).2.1._timestamp := by
    rw [getCurrentId_timestamp]
    simp only [SeedStore.get_rounded_timestamp, hstep]
    simp only [SeedStore.get_rounded_timestamp] at hsame hmiss
    rw [← hsame]
    exact hmiss
  have := getCurrentId_miss_loads ops fuel2 _ (SeedStore.getCurrentId ops fuel1 st w t1).2.2 t2
    hmiss2
  rw [hfile] at this
  exact this

/-- C7, the code evaluated: on a store over the record `1000 / 9000,5 / 10000,54` with step
size 100, two consecutive `getCurrentId` calls at the times 10250 and 10260 (both in the bucket
10200) return the same identifier, but `_timestamp` is still 0 after the first call, and the
two calls together perform two loads and two saves. -/
theorem getCurrentId_twice_two_cycles :
    (SeedStore.getCurrentId demoOps 5 demoStore
      (demoWorld "1000\n9000,5\n10000,54\n".data) 10250).1 = Outcome.returned 1044 ∧
    (SeedStore.getCurrentId demoOps 5 demoStore
      (demoWorld "1000\n9000,5\n10000,54\n".data) 10250).2.1._timestamp = 0 ∧
    (SeedStore.getCurrentId demoOps 5 demoStore
      (demoWorld "1000\n9000,5\n10000,54\n".data) 10250).2.1._currentId = 1044 ∧
    (SeedStore.getCurrentId demoOps 5
      (SeedStore.getCurrentId demoOps 5 demoStore
        (demoWorld "1000\n9000,5\n10000,54\n".data) 10250).2.1
      (SeedStore.getCurrentId demoOps 5 demoStore
        (demoWorld "1000\n9000,5\n10000,54\n".data) 10250).2.2 10260).1 =
      Outcome.returned 1044 ∧
    (SeedStore.getCurrentId demoOps 5
      (SeedStore.getCurrentId demoOps 5 demoStore
        (demoWorld "1000\n9000,5\n10000,54\n".data) 10250).2.1
      (SeedStore.getCurrentId demoOps 5 demoStore
        (demoWorld "1000\n9000,5\n10000,54\n".data) 10250).2.2 10260).2.2.log =
      [IOEvent.load "seeds.txt", IOEvent.save "seeds.txt",
        IOEvent.load "seeds.txt", IOEvent.save "seeds.txt"] :=
  ⟨rfl, rfl, rfl, rfl, rfl⟩

/-- What the constructor does in each of the three cases of `loadFrom`: a record that loads
leaves the files as they are; an exception thrown as a pointer (missing or truncated file) is
caught and a fresh chain is saved; an exception thrown by value (from `std::stoll`) is not
caught and leaves the constructor, the files being as they were. -/
theorem construct_cases (ops : SeedOps Seed Id R) (w : World) (location : String)
    (stepSize window t : Int) (r : R) :
    (∀ c fuel, SeedDiskData.readRecord ops (w.files location) = Except.ok c →
      SeedStore.construct ops fuel w location stepSize window t r =
        (Outcome.returned ⟨location, stepSize, window, 0, ops.defaultId⟩,
          { w with log := w.log ++ [IOEvent.load location] })) ∧
    (∀ what fuel c0, SeedDiskData.readRecord ops (w.files location) =
        Except.error (Thrown.ptr what) →
      SeedDiskData.createNew ops fuel r (round_down_timestamp t stepSize) stepSize window =
        some c0 →
      SeedStore.construct ops fuel w location stepSize window t r =
        (Outcome.returned ⟨location, stepSize, window, 0, ops.defaultId⟩,
          c0.saveTo ops { w with log := w.log ++ [IOEvent.load location] } location)) ∧
    (∀ what fuel, SeedDiskData.readRecord ops (w.files location) =
        Except.error (Thrown.val what) →
      SeedStore.construct ops fuel w location stepSize window t r =
        (Outcome.threw (Thrown.val what),
          { w with log := w.log ++ [IOEvent.load location] })) := by
  refine ⟨?_, ?_, ?_⟩
  · intro c fuel h
    simp only [SeedStore.construct, SeedDiskData.loadFrom, h]
  · intro what fuel c0 h hc
    simp only [SeedStore.construct, SeedDiskData.loadFrom, h, SeedStore.get_rounded_timestamp, hc]
  · intro what fuel h
    simp only [SeedStore.construct, SeedDiskData.loadFrom, h]

/-- C8, the code evaluated: when the window line of the file is not a number (`abc`),
`std::stoll` throws `std::invalid_argument` by value, the handler `catch(std::exception *e)`
does not take it, and the constructor ends with that exception; the file is left as it was and
no fresh chain is written.  A truncated file (`1000` alone) is healed. -/
theorem construct_malformed_window_throws :
    (SeedStore.construct demoOps 10 (demoWorld "abc\n9000,5\n10000,54\n".data) "seeds.txt"
      100 1000 10000 5).1 = Outcome.threw (Thrown.val "std::invalid_argument") ∧
    (SeedStore.construct demoOps 10 (demoWorld "abc\n9000,5\n10000,54\n".data) "seeds.txt"
      100 1000 10000 5).2.files "seeds.txt" = some "abc\n9000,5\n10000,54\n".data ∧
    (SeedStore.construct demoOps 10 (demoWorld "abc\n9000,5\n10000,54\n".data) "seeds.txt"
      100 1000 10000 5).2.log = [IOEvent.load "seeds.txt"] ∧
    (SeedStore.construct demoOps 10 (demoWorld "1000\n".data) "seeds.txt"
      100 1000 10000 5).1 = Outcome.returned demoStore ∧
    (SeedStore.construct demoOps 10 (demoWorld "1000\n".data) "seeds.txt"
      100 1000 10000 5).2.files "seeds.txt" = some "1000\n9000,5\n10000,54\n".data :=
  ⟨rfl, rfl, rfl, rfl, rfl⟩

/-- C9 (load failures after construction propagate atomically).  Let loading the persisted
record fail with the exception `e`.  Then `getCurrentId` on a cache miss, `changeWindow` with a
window different from the configured one, and `getSeedAndRotate` on an existing file each end
with the exception `e`; the store object (configuration and cache) is unchanged, and so are the
files: the world differs only by the logged load attempt, and no chain is written. -/
theorem load_failure_propagates (ops : SeedOps Seed Id R) (fuel : Nat) (st : SeedStore Id)
    (w : World) (e : Thrown)
    (hload : SeedDiskData.readRecord ops (w.files st._fileName) = Except.error e) :
    (∀ t, st.get_rounded_timestamp t ≠ st._timestamp →
      SeedStore.getCurrentId ops fuel st w t =
        (Outcome.threw e, st, { w with log := w.log ++ [IOEvent.load st._fileName] })) ∧
    (∀ newWindow, newWindow ≠ st._window →
      SeedStore.changeWindow ops fuel st w newWindow =
        (Outcome.threw e, st, { w with log := w.log ++ [IOEvent.load st._fileName] })) ∧
    (∀ t rSeed rNew, w.files st._fileName ≠ none →
      SeedStore.getSeedAndRotate ops fuel st w t rSeed rNew =
        (Outcome.threw e, st, { w with log := w.log ++ [IOEvent.load st._fileName] })) := by
  refine ⟨?_, ?_, ?_⟩
  · intro t ht
    simp only [SeedStore.getCurrentId, ht, if_false, SeedDiskData.loadFrom, hload]
  · intro newWindow hn
    simp only [SeedStore.changeWindow, hn, if_false, SeedDiskData.loadFrom, hload]
  · intro t rSeed rNew hex
    cases hf : w.files st._fileName with
    | none => exact absurd hf hex
    | some content =>
      rw [hf] at hload
      simp only [SeedStore.getSeedAndRotate, SeedStore.seedToDisclose, hf,
        SeedDiskData.loadFrom, hload]

/-- Witness of C9: the store over a truncated record (the window line alone); the three
operations end with the exception of the failed load and leave store and file alone. -/
theorem load_failure_propagates_witness :
    SeedDiskData.readRecord demoOps ((demoWorld "1000\n".data).files demoStore._fileName) =
      Except.error (Thrown.ptr "Could not read from seed file") ∧
    ((∀ t, demoStore.get_rounded_timestamp t ≠ demoStore._timestamp →
      SeedStore.getCurrentId demoOps 5 demoStore (demoWorld "1000\n".data) t =
        (Outcome.threw (Thrown.ptr "Could not read from seed file"), demoStore,
          { demoWorld "1000\n".data with
            log := (demoWorld "1000\n".data).log ++ [IOEvent.load demoStore._fileName] })) ∧
    (∀ newWindow, newWindow ≠ demoStore._window →
      SeedStore.changeWindow demoOps 5 demoStore (demoWorld "1000\n".data) newWindow =
        (Outcome.threw (Thrown.ptr "Could not read from seed file"), demoStore,
          { demoWorld "1000\n".data with
            log := (demoWorld "1000\n".data).log ++ [IOEvent.load demoStore._fileName] })) ∧
    (∀ t rSeed rNew, (demoWorld "1000\n".data).files demoStore._fileName ≠ none →
      SeedStore.getSeedAndRotate demoOps 5 demoStore (demoWorld "1000\n".data) t rSeed rNew =
        (Outcome.threw (Thrown.ptr "Could not read from seed file"), demoStore,
          { demoWorld "1000\n".data with
            log := (demoWorld "1000\n".data).log ++ [IOEvent.load demoStore._fileName] }))) :=
  ⟨rfl, load_failure_propagates demoOps 5 demoStore (demoWorld "1000\n".data)
    (Thrown.ptr "Could not read from seed file") rfl⟩

/-- C10, the code evaluated: a store is constructed at time 50 on an empty file system,
rotated at time 60 and queried at time 70 (step size 100, so all three times round to 0).  The
rotation writes the new chain `1000 / -1000,7 / 0,83` and sets `_timestamp` to 0 to force a
refresh, but 0 is also the rounded time of the query: `getCurrentId` takes the cache for valid,
performs no load (the log still ends with the save of the rotation) and returns the stored
`_currentId`, the default identifier 0 that was never computed, where `stepTo` on the new
chain gives 1083.  The same happens for a query at time 55 straight after construction: no
load, identifier 0, where the chain on disk gives 1054. -/
theorem rotate_then_query_at_zero_no_load :
    (SeedStore.construct demoOps 20 emptyWorld "seeds.txt" 100 1000 50 5).1 =
      Outcome.returned demoStore ∧
    (SeedStore.construct demoOps 20 emptyWorld "seeds.txt" 100 1000 50 5).2.files "seeds.txt" =
      some "1000\n-1000,5\n0,54\n".data ∧
    (SeedStore.getCurrentId demoOps 20 demoStore
      (SeedStore.construct demoOps 20 emptyWorld "seeds.txt" 100 1000 50 5).2 55).1 =
      Outcome.returned 0 ∧
    (SeedStore.getCurrentId demoOps 20 demoStore
      (SeedStore.construct demoOps 20 emptyWorld "seeds.txt" 100 1000 50 5).2 55).2.2.log =
      [IOEvent.load "seeds.txt", IOEvent.save "seeds.txt"] ∧
    SeedDiskData.stepTo demoOps 20 ⟨⟨-1000, 5⟩, ⟨0, 54⟩, 1000⟩ 55 100 =
      some (1054, ⟨⟨-1000, 5⟩, ⟨0, 54⟩, 1000⟩) ∧
    (SeedStore.getSeedAndRotate demoOps 20 demoStore
      (SeedStore.construct demoOps 20 emptyWorld "seeds.txt" 100 1000 50 5).2 60 6 7).1 =
      Outcome.returned ⟨-1000, 5⟩ ∧
    (SeedStore.getSeedAndRotate demoOps 20 demoStore
      (SeedStore.construct demoOps 20 emptyWorld "seeds.txt" 100 1000 50 5).2 60 6 7).2.1._timestamp
      = 0 ∧
    (SeedStore.getSeedAndRotate demoOps 20 demoStore
      (SeedStore.construct demoOps 20 emptyWorld "seeds.txt" 100 1000 50 5).2 60 6 7).2.2.files
      "seeds.txt" = some "1000\n-1000,7\n0,83\n".data ∧
    (SeedStore.getSeedAndRotate demoOps 20 demoStore
      (SeedStore.construct demoOps 20 emptyWorld "seeds.txt" 100 1000 50 5).2 60 6 7).2.2.log =
      [IOEvent.load "seeds.txt", IOEvent.save "seeds.txt", IOEvent.load "seeds.txt",
        IOEvent.save "seeds.txt"] ∧
    rotateThenQueryAtZero.1 = Outcome.returned 0 ∧
    rotateThenQueryAtZero.2.2.log =
      [IOEvent.load "seeds.txt", IOEvent.save "seeds.txt", IOEvent.load "seeds.txt",
        IOEvent.save "seeds.txt"] ∧
    SeedDiskData.stepTo demoOps 20 ⟨⟨-1000, 7⟩, ⟨0, 83⟩, 1000⟩ 70 100 =
      some (1083, ⟨⟨-1000, 7⟩, ⟨0, 83⟩, 1000⟩) :=
  ⟨rfl, rfl, rfl, rfl, by decide, rfl, rfl, rfl, rfl, rfl, rfl, by decide⟩

theorem getSeedAndRotate_post_aux (ops : SeedOps Seed Id R) (hts : StepAddsTs ops)
    (st : SeedStore Id) (w : World) (t : Int) (rSeed rNew : R) (hs : 0 < st._stepSize) :
    ∀ c, SeedDiskData.readRecord ops (w.files st._fileName) = Except.ok c →
      ∃ (F : Nat) (p : Id × SeedDiskData Seed) (c1 : SeedDiskData Seed), ∀ fuel, F ≤ fuel →
        c.stepTo ops fuel (st.get_rounded_timestamp t) st._stepSize = some p ∧
        SeedDiskData.createNew ops fuel rNew (st.get_rounded_timestamp t) st._stepSize
          st._window = some c1 ∧
        SeedStore.getSeedAndRotate ops fuel st w t rSeed rNew =
          (Outcome.returned p.2._s_star, { st with _timestamp := 0 },
            c1.saveTo ops { w with log := w.log ++ [IOEvent.load st._fileName] }
              st._fileName) := by
  intro c hload
  obtain ⟨F1, p, hp⟩ := stepTo_total ops hts c (st.get_rounded_timestamp t) st._stepSize hs
  obtain ⟨F2, c1, hc1⟩ := createNew_total ops hts rNew (st.get_rounded_timestamp t)
    st._stepSize st._window hs
  refine ⟨max F1 F2, p, c1, fun fuel hf => ?_⟩
  have h1 := hp fuel (le_trans (le_max_left _ _) hf)
  have h2 := hc1 fuel (le_trans (le_max_right _ _) hf)
  refine ⟨h1, h2, ?_⟩
  cases hf : w.files st._fileName with
  | none =>
    rw [hf] at hload
    simp [SeedDiskData.readRecord] at hload
  | some content =>
    rw [hf] at hload
    simp only [SeedStore.getSeedAndRotate, SeedStore.seedToDisclose, hf,
      SeedDiskData.loadFrom, hload, h1, h2]

/-- What `getSeedAndRotate` does when it returns.  Let the store have `stepSize > 0` and let
one seed step raise the timestamp by exactly `stepSize`; let `now` be the rounded wall-clock
time.  (1) If the persisted record loads as the chain `c`, then with enough fuel
`getSeedAndRotate` returns the oldest seed of `c` after `c.stepTo(now, stepSize)`, sets
`_timestamp` to 0, and saves the chain `createNew(now, stepSize, _window)` over the record.
(2) If no file exists, it returns `safeRandomSeed(now - _window)` and saves the new chain all
the same.  (3) After a save the file holds the record of the saved chain.  (4) On a store with
`_timestamp = 0`, a `getCurrentId` whose rounded time is not 0 performs a load; the rounded
time 0 is the exception, evaluated separately above. -/
theorem getSeedAndRotate_post (ops : SeedOps Seed Id R) (hts : StepAddsTs ops)
    (st : SeedStore Id) (w : World) (t : Int) (rSeed rNew : R) (hs : 0 < st._stepSize) :
    (∀ c, SeedDiskData.readRecord ops (w.files st._fileName) = Except.ok c →
      ∃ (F : Nat) (p : Id × SeedDiskData Seed) (c1 : SeedDiskData Seed), ∀ fuel, F ≤ fuel →
        c.stepTo ops fuel (st.get_rounded_timestamp t) st._stepSize = some p ∧
        SeedDiskData.createNew ops fuel rNew (st.get_rounded_timestamp t) st._stepSize
          st._window = some c1 ∧
        SeedStore.getSeedAndRotate ops fuel st w t rSeed rNew =
          (Outcome.returned p.2._s_star, { st with _timestamp := 0 },
            c1.saveTo ops { w with log := w.log ++ [IOEvent.load st._fileName] }
              st._fileName)) ∧
    (w.files st._fileName = none →
      ∃ (F : Nat) (c1 : SeedDiskData Seed), ∀ fuel, F ≤ fuel →
        SeedDiskData.createNew ops fuel rNew (st.get_rounded_timestamp t) st._stepSize
          st._window = some c1 ∧
        SeedStore.getSeedAndRotate ops fuel st w t rSeed rNew =
          (Outcome.returned (ops.safeRandomSeed rSeed (st.get_rounded_timestamp t - st._window)),
            { st with _timestamp := 0 }, c1.saveTo ops w st._fileName)) ∧
    (∀ (c1 : SeedDiskData Seed) (w1 : World),
      (c1.saveTo ops w1 st._fileName).files st._fileName = some (c1.record ops)) ∧
    (∀ (fuel : Nat) (w1 : World) (t1 : Int), round_down_timestamp t1 st._stepSize ≠ 0 →
      ∃ rest, (SeedStore.getCurrentId ops fuel { st with _timestamp := 0 } w1 t1).2.2.log =
        w1.log ++ IOEvent.load st._fileName :: rest) := by
  refine ⟨?_, ?_, fun c1 w1 => saveTo_files_location ops c1 w1 st._fileName, ?_⟩
  · intro c hload
    obtain ⟨F1, p, hp⟩ := stepTo_total ops hts c (st.get_rounded_timestamp t) st._stepSize hs
    obtain ⟨F2, c1, hc1⟩ := createNew_total ops hts rNew (st.get_rounded_timestamp t)
      st._stepSize st._window hs
    refine ⟨max F1 F2, p, c1, fun fuel hf => ?_⟩
    have h1 := hp fuel (le_trans (le_max_left _ _) hf)
    have h2 := hc1 fuel (le_trans (le_max_right _ _) hf)
    refine ⟨h1, h2, ?_⟩
    cases hf : w.files st._fileName with
    | none =>
      rw [hf] at hload
      simp [SeedDiskData.readRecord] at hload
    | some content =>
      rw [hf] at hload
      simp only [SeedStore.getSeedAndRotate, SeedStore.seedToDisclose, hf,
        SeedDiskData.loadFrom, hload, h1, h2]
  · intro hnone
    obtain ⟨F2, c1, hc1⟩ := createNew_total ops hts rNew (st.get_rounded_timestamp t)
      st._stepSize st._window hs
    refine ⟨F2, c1, fun fuel hf => ⟨hc1 fuel hf, ?_⟩⟩
    simp only [SeedStore.getSeedAndRotate, SeedStore.seedToDisclose, hnone, hc1 fuel hf]
  · intro fuel w1 t1 ht1
    exact getCurrentId_miss_loads ops fuel { st with _timestamp := 0 } w1 t1 ht1

/-- An instance of `getSeedAndRotate_post`: the store over the record
`1000 / 9000,5 / 10000,54`, rotated at time 10250: the disclosed seed is the oldest seed after
stepping to 10200, the new chain runs from 9200 to 10200, and the next query in the same bucket
loads the record again. -/
theorem getSeedAndRotate_post_witness :
    StepAddsTs demoOps ∧ (0 : Int) < demoStore._stepSize ∧
    (SeedStore.getSeedAndRotate demoOps 10 demoStore
      (demoWorld "1000\n9000,5\n10000,54\n".data) 10250 6 7).1 = Outcome.returned ⟨9200, 67⟩ ∧
    (SeedStore.getSeedAndRotate demoOps 10 demoStore
      (demoWorld "1000\n9000,5\n10000,54\n".data) 10250 6 7).2.2.files "seeds.txt" =
      some "1000\n9200,7\n10200,83\n".data ∧
    (∀ (fuel : Nat) (w1 : World) (t1 : Int), round_down_timestamp t1 demoStore._stepSize ≠ 0 →
      ∃ rest, (SeedStore.getCurrentId demoOps fuel { demoStore with _timestamp := 0 } w1
          t1).2.2.log = w1.log ++ IOEvent.load demoStore._fileName :: rest) :=
  ⟨demoOps_stepAddsTs, by decide, rfl, rfl,
    (getSeedAndRotate_post demoOps demoOps_stepAddsTs demoStore
      (demoWorld "1000\n9000,5\n10000,54\n".data) 10250 6 7 (by decide)).2.2.2⟩

/-! ## Rotation independence, configuration, window of the store -/

/-- C11 (rotation independence, as a two-run statement).  Take two stores with the same file
name, step size and configured window, in two worlds whose persisted records load as the
chains `c1` and `c2`; rotate both at the same wall-clock time with the same random draw
`rNew` for the new chain (the draws `rSeed1`, `rSeed2` play no part).  With `stepSize > 0` and
steps that add `stepSize` to the timestamp, both calls return (given enough fuel), and both
leave the same record in the file: that of `createNew(now, stepSize, window)` for the draw
`rNew`, which depends on no part of `c1`, `c2` or of the seeds disclosed. -/
theorem rotation_independent (ops : SeedOps Seed Id R) (hts : StepAddsTs ops)
    (st1 st2 : SeedStore Id) (w1 w2 : World) (t : Int) (rSeed1 rSeed2 rNew : R)
    (c1 c2 : SeedDiskData Seed)
    (hfile : st1._fileName = st2._fileName) (hstep : st1._stepSize = st2._stepSize)
    (hwin : st1._window = st2._window) (hs : 0 < st1._stepSize)
    (hload1 : SeedDiskData.readRecord ops (w1.files st1._fileName) = Except.ok c1)
    (hload2 : SeedDiskData.readRecord ops (w2.files st2._fileName) = Except.ok c2) :
    ∃ (F : Nat) (cNew : SeedDiskData Seed) (s1 s2 : Seed), ∀ fuel, F ≤ fuel →
      SeedDiskData.createNew ops fuel rNew (round_down_timestamp t st1._stepSize) st1._stepSize
        st1._window = some cNew ∧
      (SeedStore.getSeedAndRotate ops fuel st1 w1 t rSeed1 rNew).1 = Outcome.returned s1 ∧
      (SeedStore.getSeedAndRotate ops fuel st2 w2 t rSeed2 rNew).1 = Outcome.returned s2 ∧
      (SeedStore.getSeedAndRotate ops fuel st1 w1 t rSeed1 rNew).2.2.files st1._fileName =
        some (cNew.record ops) ∧
      (SeedStore.getSeedAndRotate ops fuel st2 w2 t rSeed2 rNew).2.2.files st1._fileName =
        some (cNew.record ops) := by
  have hs2 : 0 < st2._stepSize := by rw [← hstep]; exact hs
  obtain ⟨F1, p1, cA, h1⟩ :=
    (getSeedAndRotate_post_aux ops hts st1 w1 t rSeed1 rNew hs) c1 hload1
  obtain ⟨F2, p2, cB, h2⟩ :=
    (getSeedAndRotate_post_aux ops hts st2 w2 t rSeed2 rNew hs2) c2 hload2
  refine ⟨max F1 F2, cA, p1.2._s_star, p2.2._s_star, fun fuel hf => ?_⟩
  obtain ⟨_, hA, hr1⟩ := h1 fuel (le_trans (le_max_left _ _) hf)
  obtain ⟨_, hB, hr2⟩ := h2 fuel (le_trans (le_max_right _ _) hf)
  have hAB : cB = cA := by
    simp only [SeedStore.get_rounded_timestamp, ← hstep, ← hwin] at hB
    simp only [SeedStore.get_rounded_timestamp] at hA
    rw [hA] at hB
    exact (Option.some.inj hB).symm
  refine ⟨hA, ?_, ?_, ?_, ?_⟩
  · rw [hr1]
  · rw [hr2]
  · rw [hr1]
    exact saveTo_files_location ops cA _ st1._fileName
  · rw [hr2, hAB, hfile]
    exact saveTo_files_location ops cA _ st2._fileName

/-- Witness of C11: two stores over the records `1000 / 9000,5 / 10000,54` and
`1000 / 9100,33 / 10100,77`, rotated at time 10250 with the draw 7 for the new chain: the
disclosed seeds differ, the record written is `1000 / 9200,7 / 10200,83` in both runs. -/
theorem rotation_independent_witness :
    StepAddsTs demoOps ∧ (0 : Int) < demoStore._stepSize ∧
    SeedDiskData.readRecord demoOps
      ((demoWorld "1000\n9000,5\n10000,54\n".data).files demoStore._fileName) =
      Except.ok ⟨⟨9000, 5⟩, ⟨10000, 54⟩, 1000⟩ ∧
    SeedDiskData.readRecord demoOps
      ((demoWorld "1000\n9100,33\n10100,77\n".data).files demoStore._fileName) =
      Except.ok ⟨⟨9100, 33⟩, ⟨10100, 77⟩, 1000⟩ ∧
    (SeedStore.getSeedAndRotate demoOps 10 demoStore
      (demoWorld "1000\n9000,5\n10000,54\n".data) 10250 1 7).1 = Outcome.returned ⟨9200, 67⟩ ∧
    (SeedStore.getSeedAndRotate demoOps 10 demoStore
      (demoWorld "1000\n9100,33\n10100,77\n".data) 10250 2 7).1 = Outcome.returned ⟨9200, 32⟩ ∧
    (SeedStore.getSeedAndRotate demoOps 10 demoStore
      (demoWorld "1000\n9000,5\n10000,54\n".data) 10250 1 7).2.2.files "seeds.txt" =
      some "1000\n9200,7\n10200,83\n".data ∧
    (SeedStore.getSeedAndRotate demoOps 10 demoStore
      (demoWorld "1000\n9100,33\n10100,77\n".data) 10250 2 7).2.2.files "seeds.txt" =
      some "1000\n9200,7\n10200,83\n".data ∧
    ∃ (F : Nat) (cNew : SeedDiskData DemoSeed) (s1 s2 : DemoSeed), ∀ fuel, F ≤ fuel →
      SeedDiskData.createNew demoOps fuel 7 (round_down_timestamp 10250 demoStore._stepSize)
        demoStore._stepSize demoStore._window = some cNew ∧
      (SeedStore.getSeedAndRotate demoOps fuel demoStore
        (demoWorld "1000\n9000,5\n10000,54\n".data) 10250 1 7).1 = Outcome.returned s1 ∧
      (SeedStore.getSeedAndRotate demoOps fuel demoStore
        (demoWorld "1000\n9100,33\n10100,77\n".data) 10250 2 7).1 = Outcome.returned s2 ∧
      (SeedStore.getSeedAndRotate demoOps fuel demoStore
        (demoWorld "1000\n9000,5\n10000,54\n".data) 10250 1 7).2.2.files
          demoStore._fileName = some (cNew.record demoOps) ∧
      (SeedStore.getSeedAndRotate demoOps fuel demoStore
        (demoWorld "1000\n9100,33\n10100,77\n".data) 10250 2 7).2.2.files
          demoStore._fileName = some (cNew.record demoOps) :=
  ⟨demoOps_stepAddsTs, by decide, rfl, rfl, rfl, rfl, rfl, rfl,
    rotation_independent demoOps demoOps_stepAddsTs demoStore demoStore
      (demoWorld "1000\n9000,5\n10000,54\n".data)
      (demoWorld "1000\n9100,33\n10100,77\n".data) 10250 1 2 7
      ⟨⟨9000, 5⟩, ⟨10000, 54⟩, 1000⟩ ⟨⟨9100, 33⟩, ⟨10100, 77⟩, 1000⟩
      rfl rfl rfl (by decide) rfl rfl⟩

/-- C12 as stated fails: the constructor has no configuration check.  With step size -100 and
window -5 over a record that loads, construction returns a store carrying these values, after
reading the file; with step size 100 and window -5 on an empty file system, construction
returns a store and writes a record (window -5, oldest and newest both at 10005). -/
theorem construct_accepts_bad_configuration :
    (SeedStore.construct demoOps 10 (demoWorld "1000\n9000,5\n10000,54\n".data) "seeds.txt"
      (-100) (-5) 10000 5).1 = Outcome.returned ⟨"seeds.txt", -100, -5, 0, 0⟩ ∧
    (SeedStore.construct demoOps 10 (demoWorld "1000\n9000,5\n10000,54\n".data) "seeds.txt"
      (-100) (-5) 10000 5).2.log = [IOEvent.load "seeds.txt"] ∧
    (SeedStore.construct demoOps 10 emptyWorld "seeds.txt" 100 (-5) 10000 5).1 =
      Outcome.returned ⟨"seeds.txt", 100, -5, 0, 0⟩ ∧
    (SeedStore.construct demoOps 10 emptyWorld "seeds.txt" 100 (-5) 10000 5).2.log =
      [IOEvent.load "seeds.txt", IOEvent.save "seeds.txt"] ∧
    (SeedStore.construct demoOps 10 emptyWorld "seeds.txt" 100 (-5) 10000 5).2.files
      "seeds.txt" = some "-5\n10005,5\n10005,5\n".data :=
  ⟨rfl, rfl, rfl, rfl, rfl⟩

/-- C12, amended (no configuration check at construction).  For every step size and window,
also `stepSize ≤ 0` or `window < 0`: the constructor first tries to load the storage location
(the load is the first entry it adds to the log), and when the record loads, it returns the
store with the given step size and window and leaves every file as it was. -/
theorem construct_no_validation (ops : SeedOps Seed Id R) (fuel : Nat) (w : World)
    (location : String) (stepSize window t : Int) (r : R) :
    (∃ rest, (SeedStore.construct ops fuel w location stepSize window t r).2.log =
      w.log ++ IOEvent.load location :: rest) ∧
    (∀ c, SeedDiskData.readRecord ops (w.files location) = Except.ok c →
      (SeedStore.construct ops fuel w location stepSize window t r).1 =
        Outcome.returned ⟨location, stepSize, window, 0, ops.defaultId⟩ ∧
      (SeedStore.construct ops fuel w location stepSize window t r).2.files = w.files) := by
  cases hload : SeedDiskData.readRecord ops (w.files location) with
  | ok c =>
    have h := (construct_cases ops w location stepSize window t r).1 c fuel hload
    rw [h]
    exact ⟨⟨[], rfl⟩, fun _ _ => ⟨rfl, rfl⟩⟩
  | error e0 =>
    cases e0 with
    | val what =>
      have h := (construct_cases ops w location stepSize window t r).2.2 what fuel hload
      rw [h]
      exact ⟨⟨[], rfl⟩, fun c hc => by cases hc⟩
    | ptr what =>
      cases hc : SeedDiskData.createNew ops fuel r (round_down_timestamp t stepSize) stepSize
          window with
      | some c0 =>
        have h := (construct_cases ops w location stepSize window t r).2.1 what fuel c0 hload hc
        rw [h]
        exact ⟨⟨[IOEvent.save location], by simp [SeedDiskData.saveTo]⟩,
          fun c hc => by cases hc⟩
      | none =>
        have h : SeedStore.construct ops fuel w location stepSize window t r =
            (Outcome.outOfFuel, { w with log := w.log ++ [IOEvent.load location] }) := by
          simp only [SeedStore.construct, SeedDiskData.loadFrom, hload,
            SeedStore.get_rounded_timestamp, hc]
        rw [h]
        exact ⟨⟨[], rfl⟩, fun c hc => by cases hc⟩

/-- The store-level `changeWindow` never assigns a field of the store: `_window` keeps the
construction window, and the identifier cache is untouched. -/
theorem changeWindow_store_unchanged (ops : SeedOps Seed Id R) (fuel : Nat) (st : SeedStore Id)
    (w : World) (newWindow : Int) :
    (SeedStore.changeWindow ops fuel st w newWindow).2.1 = st := by
  simp only [SeedStore.changeWindow, SeedDiskData.loadFrom]
  split
  · rfl
  · cases SeedDiskData.readRecord ops (w.files st._fileName) with
    | error e => rfl
    | ok sdd =>
      simp only
      cases sdd.changeWindow ops fuel newWindow st._stepSize with
      | none => rfl
      | some d1 => rfl

/-- C13, the code evaluated: a store constructed with window 1000 over the record
`1000 / 9000,5 / 10000,54`.  `changeWindow(500)` rewrites the record with window 500 and
oldest at 9500, but leaves the field `_window` at 1000.  The following `changeWindow(1000)` is
therefore taken for a no-op: it performs no load and no save, and the persisted window stays
500 instead of becoming 1000. -/
theorem changeWindow_back_is_skipped :
    (SeedStore.changeWindow demoOps 10 demoStore
      (demoWorld "1000\n9000,5\n10000,54\n".data) 500).1 = Outcome.returned () ∧
    (SeedStore.changeWindow demoOps 10 demoStore
      (demoWorld "1000\n9000,5\n10000,54\n".data) 500).2.1._window = 1000 ∧
    (SeedStore.changeWindow demoOps 10 demoStore
      (demoWorld "1000\n9000,5\n10000,54\n".data) 500).2.2.files "seeds.txt" =
      some "500\n9500,23\n10000,54\n".data ∧
    (SeedStore.changeWindow demoOps 10
      (SeedStore.changeWindow demoOps 10 demoStore
        (demoWorld "1000\n9000,5\n10000,54\n".data) 500).2.1
      (SeedStore.changeWindow demoOps 10 demoStore
        (demoWorld "1000\n9000,5\n10000,54\n".data) 500).2.2 1000).1 = Outcome.returned () ∧
    (SeedStore.changeWindow demoOps 10
      (SeedStore.changeWindow demoOps 10 demoStore
        (demoWorld "1000\n9000,5\n10000,54\n".data) 500).2.1
      (SeedStore.changeWindow demoOps 10 demoStore
        (demoWorld "1000\n9000,5\n10000,54\n".data) 500).2.2 1000).2.2.files "seeds.txt" =
      some "500\n9500,23\n10000,54\n".data ∧
    (SeedStore.changeWindow demoOps 10
      (SeedStore.changeWindow demoOps 10 demoStore
        (demoWorld "1000\n9000,5\n10000,54\n".data) 500).2.1
      (SeedStore.changeWindow demoOps 10 demoStore
        (demoWorld "1000\n9000,5\n10000,54\n".data) 500).2.2 1000).2.2.log =
      [IOEvent.load "seeds.txt", IOEvent.save "seeds.txt"] :=
  ⟨rfl, rfl, rfl, rfl, rfl, rfl⟩

/-! ## Determinism and monotonicity of `stepTo` -/

theorem stepToLoop_newest_only (ops : SeedOps Seed Id R) (now s : Int) (fuel : Nat) (id : Id)
    (d1 d2 : SeedDiskData Seed) (h : d1._s_current = d2._s_current) :
    (stepToLoop ops now s fuel id d1).map (fun p => (p.1, p.2._s_current)) =
      (stepToLoop ops now s fuel id d2).map (fun p => (p.1, p.2._s_current)) := by
  induction fuel generalizing id d1 d2 with
  | zero =>
    simp only [stepToLoop, h]
    split
    · rfl
    · simp [h]
  | succ fuel ih =>
    simp only [stepToLoop, h]
    split
    · have hc : (stepToIter ops s d1).2._s_current = (stepToIter ops s d2).2._s_current := by
        rw [stepToIter_current, stepToIter_current, h]
      have hi : (stepToIter ops s d1).1 = (stepToIter ops s d2).1 := by
        rw [stepToIter_id, stepToIter_id, h]
      rw [hi]
      exact ih _ _ _ hc
    · simp [h]

theorem stepTo_newest_only (ops : SeedOps Seed Id R) (fuel : Nat) (now s : Int)
    (d1 d2 : SeedDiskData Seed) (h : d1._s_current = d2._s_current) :
    (d1.stepTo ops fuel now s).map (fun p => (p.1, p.2._s_current)) =
      (d2.stepTo ops fuel now s).map (fun p => (p.1, p.2._s_current)) := by
  simp only [SeedDiskData.stepTo, h]
  split
  · simp [h]
  · exact stepToLoop_newest_only ops _ s fuel _ d1 d2 h

theorem stepToSeq_newest_only (ops : SeedOps Seed Id R) (fuel : Nat) (s : Int)
    (nows : List Int) (d1 d2 : SeedDiskData Seed) (h : d1._s_current = d2._s_current) :
    (stepToSeq ops fuel s d1 nows).map idsAndNewest =
      (stepToSeq ops fuel s d2 nows).map idsAndNewest := by
  induction nows generalizing d1 d2 with
  | nil => rfl
  | cons now rest ih =>
    have h1 := stepTo_newest_only ops fuel now s d1 d2 h
    simp only [stepToSeq]
    cases hp1 : d1.stepTo ops fuel now s with
    | none =>
      rw [hp1] at h1
      cases hp2 : d2.stepTo ops fuel now s with
      | none => rfl
      | some p2 =>
        rw [hp2] at h1
        simp at h1
    | some p1 =>
      rw [hp1] at h1
      cases hp2 : d2.stepTo ops fuel now s with
      | none =>
        rw [hp2] at h1
        simp at h1
      | some p2 =>
        rw [hp2] at h1
        simp only [Option.map_some', Option.some.injEq, Prod.mk.injEq] at h1
        have h2 := ih p1.2 p2.2 h1.2
        cases hq1 : stepToSeq ops fuel s p1.2 rest with
        | none =>
          rw [hq1] at h2
          cases hq2 : stepToSeq ops fuel s p2.2 rest with
          | none => simp only [hq1, hq2]
          | some l2 =>
            rw [hq2] at h2
            simp at h2
        | some l1 =>
          rw [hq1] at h2
          cases hq2 : stepToSeq ops fuel s p2.2 rest with
          | none =>
            rw [hq2] at h2
            simp at h2
          | some l2 =>
            rw [hq2] at h2
            simp only [Option.map_some', Option.some.injEq] at h2
            simp only [hq1, hq2, Option.map_some', Option.some.injEq, idsAndNewest,
              List.map_cons, List.cons.injEq, Prod.mk.injEq]
            exact ⟨h1, h2⟩

/-- The result of the loop of `createNew` does not depend on the fuel. -/
theorem createNewLoop_unique (ops : SeedOps Seed Id R) (now s : Int) (f1 f2 : Nat)
    (o a b : Seed) (h1 : createNewLoop ops now s f1 o = some a)
    (h2 : createNewLoop ops now s f2 o = some b) : a = b := by
  induction f1 generalizing f2 o with
  | zero =>
    simp only [createNewLoop] at h1
    split at h1
    · cases h1
    · rename_i hc
      cases h1
      cases f2 with
      | zero =>
        simp only [createNewLoop, hc, if_false, Option.some.injEq] at h2
        exact h2
      | succ f2 =>
        simp only [createNewLoop, hc, if_false, Option.some.injEq] at h2
        exact h2
  | succ f1 ih =>
    simp only [createNewLoop] at h1
    split at h1
    · rename_i hc
      cases f2 with
      | zero => simp [createNewLoop, hc] at h2
      | succ f2 =>
        simp only [createNewLoop, hc, if_true] at h2
        exact ih f2 _ h1 h2
    · rename_i hc
      cases h1
      cases f2 with
      | zero =>
        simp only [createNewLoop, hc, if_false, Option.some.injEq] at h2
        exact h2
      | succ f2 =>
        simp only [createNewLoop, hc, if_false, Option.some.injEq] at h2
        exact h2

/-- C14 (determinism and window independence of identifiers).  Let two chains have equal
newest seeds, whatever their oldest seeds and windows.  (1) For every step size, fuel and list
of query times, the two runs of `stepTo` either both run out of fuel or both return, and then
they return the same identifiers and leave equal newest seeds after every call.  (2) With
`stepSize > 0` and steps that add `stepSize` to the timestamp, both runs do return given
enough fuel.  (3) In particular, two chains built from the same oldest seed by the catch-up
loop of `createNew` for the same target time have equal newest seeds, whatever fuel and
windows they were built with, and so produce the same identifiers. -/
theorem stepTo_deterministic (ops : SeedOps Seed Id R) (stepSize : Int)
    (d1 d2 : SeedDiskData Seed) (h : d1._s_current = d2._s_current) :
    (∀ (fuel : Nat) (nows : List Int),
      (stepToSeq ops fuel stepSize d1 nows).map idsAndNewest =
        (stepToSeq ops fuel stepSize d2 nows).map idsAndNewest) ∧
    (StepAddsTs ops → 0 < stepSize → ∀ nows : List Int,
      ∃ (F : Nat) (tr1 tr2 : List (Id × SeedDiskData Seed)),
        tr1.length = nows.length ∧ idsAndNewest tr1 = idsAndNewest tr2 ∧
        ∀ fuel, F ≤ fuel →
          stepToSeq ops fuel stepSize d1 nows = some tr1 ∧
          stepToSeq ops fuel stepSize d2 nows = some tr2) ∧
    (∀ (now : Int) (f1 f2 : Nat) (a b : Seed) (w1 w2 : Int),
      createNewLoop ops now stepSize f1 d1._s_star = some a →
      createNewLoop ops now stepSize f2 d1._s_star = some b →
      a = b ∧ ∀ (fuel : Nat) (nows : List Int),
        (stepToSeq ops fuel stepSize ⟨d1._s_star, a, w1⟩ nows).map idsAndNewest =
          (stepToSeq ops fuel stepSize ⟨d1._s_star, b, w2⟩ nows).map idsAndNewest) := by
  refine ⟨fun fuel nows => stepToSeq_newest_only ops fuel stepSize nows d1 d2 h, ?_, ?_⟩
  · intro hts hs nows
    obtain ⟨F1, tr1, hlen1, h1⟩ := stepToSeq_total ops hts stepSize hs nows d1
    obtain ⟨F2, tr2, _, h2⟩ := stepToSeq_total ops hts stepSize hs nows d2
    refine ⟨max F1 F2, tr1, tr2, hlen1, ?_, fun fuel hf =>
      ⟨h1 fuel (le_trans (le_max_left _ _) hf), h2 fuel (le_trans (le_max_right _ _) hf)⟩⟩
    have := stepToSeq_newest_only ops (max F1 F2) stepSize nows d1 d2 h
    rw [h1 _ (le_max_left _ _), h2 _ (le_max_right _ _)] at this
    exact Option.some.inj this
  · intro now f1 f2 a b w1 w2 ha hb
    have hab := createNewLoop_unique ops now stepSize f1 f2 d1._s_star a b ha hb
    exact ⟨hab, fun fuel nows =>
      stepToSeq_newest_only ops fuel stepSize nows _ _ hab⟩

/-- Witness of C14: two chains with the newest seed `10000,54`, one with oldest at 9000 and
window 1000, the other with oldest at 9900 and window 100, queried at 10250, 10050 and 10999:
the identifiers are 1044, 1044 and 1091 in both runs. -/
theorem stepTo_deterministic_witness :
    (⟨⟨9000, 5⟩, ⟨10000, 54⟩, 1000⟩ : SeedDiskData DemoSeed)._s_current =
      (⟨⟨9900, 9⟩, ⟨10000, 54⟩, 100⟩ : SeedDiskData DemoSeed)._s_current ∧
    (stepToSeq demoOps 10 100 ⟨⟨9000, 5⟩, ⟨10000, 54⟩, 1000⟩ [10250, 10050, 10999]).map
        idsAndNewest =
      some [(1044, ⟨10200, 44⟩), (1044, ⟨10200, 44⟩), (1015, ⟨10900, 15⟩)] ∧
    (stepToSeq demoOps 10 100 ⟨⟨9900, 9⟩, ⟨10000, 54⟩, 100⟩ [10250, 10050, 10999]).map
        idsAndNewest =
      some [(1044, ⟨10200, 44⟩), (1044, ⟨10200, 44⟩), (1015, ⟨10900, 15⟩)] ∧
    (∀ (fuel : Nat) (nows : List Int),
      (stepToSeq demoOps fuel 100 ⟨⟨9000, 5⟩, ⟨10000, 54⟩, 1000⟩ nows).map idsAndNewest =
        (stepToSeq demoOps fuel 100 ⟨⟨9900, 9⟩, ⟨10000, 54⟩, 100⟩ nows).map idsAndNewest) :=
  ⟨rfl, by decide, by decide,
    (stepTo_deterministic demoOps 100 ⟨⟨9000, 5⟩, ⟨10000, 54⟩, 1000⟩
      ⟨⟨9900, 9⟩, ⟨10000, 54⟩, 100⟩ rfl).1⟩

theorem stepTo_mono (ops : SeedOps Seed Id R) (hts : StepAddsTs ops) (s : Int) (hs : 0 < s)
    (fuel : Nat) (d : SeedDiskData Seed) (now : Int) (p : Id × SeedDiskData Seed)
    (hrun : d.stepTo ops fuel now s = some p) :
    ops.ts d._s_current ≤ ops.ts p.2._s_current ∧ ops.ts d._s_star ≤ ops.ts p.2._s_star := by
  refine stepTo_preserves ops s
    (fun x => ops.ts d._s_current ≤ ops.ts x._s_current ∧ ops.ts d._s_star ≤ ops.ts x._s_star)
    ?_ fuel d now p hrun ⟨le_refl _, le_refl _⟩
  intro x hx
  rw [stepToIter_current, stepToIter_star, hts]
  refine ⟨by omega, ?_⟩
  split
  · rw [hts]
    omega
  · exact hx.2

/-- C15 (monotonic bucket).  Let `stepSize > 0` and let one seed step raise the timestamp by
exactly `stepSize`.  (1) For every chain and every query time, also one that lies in the past,
a `stepTo` call that returns leaves `newest.ts` and `oldest.ts` at least as large as they
were.  (2) Along every sequence of `stepTo` calls the pairs of timestamps are therefore
non-decreasing from each state to the next.  (3) The sequence does run: with enough fuel every
call returns. -/
theorem stepTo_monotonic (ops : SeedOps Seed Id R) (hts : StepAddsTs ops) (stepSize : Int)
    (hs : 0 < stepSize) (d : SeedDiskData Seed) :
    (∀ (fuel : Nat) (now : Int) (p : Id × SeedDiskData Seed),
      d.stepTo ops fuel now stepSize = some p →
      ops.ts d._s_current ≤ ops.ts p.2._s_current ∧ ops.ts d._s_star ≤ ops.ts p.2._s_star) ∧
    (∀ (fuel : Nat) (nows : List Int) (tr : List (Id × SeedDiskData Seed)),
      stepToSeq ops fuel stepSize d nows = some tr →
      List.Chain (fun a b : SeedDiskData Seed =>
          ops.ts a._s_current ≤ ops.ts b._s_current ∧ ops.ts a._s_star ≤ ops.ts b._s_star)
        d (tr.map Prod.snd)) ∧
    (∀ nows : List Int, ∃ (F : Nat) (tr : List (Id × SeedDiskData Seed)),
      tr.length = nows.length ∧
      ∀ fuel, F ≤ fuel → stepToSeq ops fuel stepSize d nows = some tr) := by
  refine ⟨fun fuel now p h => stepTo_mono ops hts stepSize hs fuel d now p h, ?_,
    fun nows => stepToSeq_total ops hts stepSize hs nows d⟩
  intro fuel nows
  induction nows generalizing d with
  | nil =>
    intro tr h
    simp only [stepToSeq, Option.some.injEq] at h
    subst h
    exact List.Chain.nil
  | cons now rest ih =>
    intro tr h
    simp only [stepToSeq] at h
    cases hp : d.stepTo ops fuel now stepSize with
    | none => simp [hp] at h
    | some p =>
      cases hq : stepToSeq ops fuel stepSize p.2 rest with
      | none => simp [hp, hq] at h
      | some l =>
        simp only [hp, hq, Option.some.injEq] at h
        subst h
        simp only [List.map_cons]
        exact List.Chain.cons (stepTo_mono ops hts stepSize hs fuel d now p hp) (ih p.2 l hq)

/-- Witness of C15: the chain from 9000 to 10000 with window 1000, queried at 10250 and then
at 9000 (a clock that went backward): newest stays at 10200 and oldest at 9200. -/
theorem stepTo_monotonic_witness :
    StepAddsTs demoOps ∧ (0 : Int) < 100 ∧
    (stepToSeq demoOps 10 100 ⟨⟨9000, 5⟩, ⟨10000, 54⟩, 1000⟩ [10250, 9000]).map
        (List.map Prod.snd) =
      some [⟨⟨9200, 67⟩, ⟨10200, 44⟩, 1000⟩, ⟨⟨9200, 67⟩, ⟨10200, 44⟩, 1000⟩] ∧
    (∀ (fuel : Nat) (now : Int) (p : Nat × SeedDiskData DemoSeed),
      SeedDiskData.stepTo demoOps fuel ⟨⟨9000, 5⟩, ⟨10000, 54⟩, 1000⟩ now 100 = some p →
      demoOps.ts (⟨⟨9000, 5⟩, ⟨10000, 54⟩, 1000⟩ : SeedDiskData DemoSeed)._s_current ≤
        demoOps.ts p.2._s_current ∧
      demoOps.ts (⟨⟨9000, 5⟩, ⟨10000, 54⟩, 1000⟩ : SeedDiskData DemoSeed)._s_star ≤
        demoOps.ts p.2._s_star) :=
  ⟨demoOps_stepAddsTs, by decide, by decide,
    (stepTo_monotonic demoOps demoOps_stepAddsTs 100 (by decide)
      ⟨⟨9000, 5⟩, ⟨10000, 54⟩, 1000⟩).1⟩

/-! ## Runs of `stepTo` and `changeWindow` after `createNew` -/

theorem applyCall_total (ops : SeedOps Seed Id R) (hts : StepAddsTs ops) (s : Int) (hs : 0 < s)
    (d : SeedDiskData Seed) (c : ChainCall) :
    ∃ (F : Nat) (d1 : SeedDiskData Seed), ∀ fuel, F ≤ fuel →
      applyCall ops fuel s d c = some d1 := by
  cases c with
  | stepTo now =>
    obtain ⟨F, p, hp⟩ := stepTo_total ops hts d now s hs
    exact ⟨F, p.2, fun fuel hf => by simp only [applyCall, hp fuel hf, Option.map_some']⟩
  | changeWindow newWindow =>
    exact ⟨ceilSteps (ops.ts d._s_star) (ops.ts d._s_current - newWindow) s, _,
      fun fuel hf => by
        simp only [applyCall]
        rw [changeWindow_eq ops hts d newWindow s hs fuel, if_pos hf]⟩

theorem runCalls_total (ops : SeedOps Seed Id R) (hts : StepAddsTs ops) (s : Int) (hs : 0 < s)
    (calls : List ChainCall) (d : SeedDiskData Seed) :
    ∃ (F : Nat) (tr : List (SeedDiskData Seed)), tr.length = calls.length ∧
      ∀ fuel, F ≤ fuel → runCalls ops fuel s d calls = some tr := by
  induction calls generalizing d with
  | nil => exact ⟨0, [], rfl, fun _ _ => rfl⟩
  | cons c rest ih =>
    obtain ⟨F1, d1, h1⟩ := applyCall_total ops hts s hs d c
    obtain ⟨F2, l, hlen, hl⟩ := ih d1
    refine ⟨max F1 F2, d1 :: l, by simp [hlen], fun fuel hf => ?_⟩
    simp only [runCalls, h1 fuel (le_trans (le_max_left _ _) hf),
      hl fuel (le_trans (le_max_right _ _) hf)]

/-- A property of chains that the loop body of `stepTo` keeps, and that `changeWindow` keeps
for windows `≥ 0`, holds after every call of a run whose windows are all `≥ 0`. -/
theorem runCalls_preserves (ops : SeedOps Seed Id R) (s : Int) (P : SeedDiskData Seed → Prop)
    (hstep : ∀ d, P d → P (stepToIter ops s d).2)
    (hcw : ∀ (d d1 : SeedDiskData Seed) (newWindow : Int) (fuel : Nat), 0 ≤ newWindow → P d →
      d.changeWindow ops fuel newWindow s = some d1 → P d1)
    (fuel : Nat) (calls : List ChainCall) (d : SeedDiskData Seed)
    (tr : List (SeedDiskData Seed)) (hnn : windowsNonneg calls)
    (hrun : runCalls ops fuel s d calls = some tr) (hd : P d) : ∀ x ∈ tr, P x := by
  induction calls generalizing d tr with
  | nil =>
    simp only [runCalls, Option.some.injEq] at hrun
    subst hrun
    simp
  | cons c rest ih =>
    simp only [runCalls] at hrun
    cases h1 : applyCall ops fuel s d c with
    | none => simp [h1] at hrun
    | some d1 =>
      cases h2 : runCalls ops fuel s d1 rest with
      | none => simp [h1, h2] at hrun
      | some l =>
        simp only [h1, h2, Option.some.injEq] at hrun
        subst hrun
        have hd1 : P d1 ∧ windowsNonneg rest := by
          cases c with
          | stepTo now =>
            simp only [applyCall] at h1
            cases hp : d.stepTo ops fuel now s with
            | none => simp [hp] at h1
            | some p =>
              simp only [hp, Option.map_some', Option.some.injEq] at h1
              subst h1
              exact ⟨stepTo_preserves ops s P hstep fuel d now p hp hd, hnn⟩
          | changeWindow newWindow =>
            exact ⟨hcw d d1 newWindow fuel hnn.1 hd h1, hnn.2⟩
        intro x hx
        rcases List.mem_cons.mp hx with h | h
        · rw [h]
          exact hd1.1
        · exact ih d1 l hd1.2 h2 hd1.1 x h

theorem stepTo_aligned (ops : SeedOps Seed Id R) (hts : StepAddsTs ops) (s : Int) (hs : 0 < s)
    (fuel : Nat) (d : SeedDiskData Seed) (now : Int) (p : Id × SeedDiskData Seed)
    (hal : s ∣ ops.ts d._s_current) (hrun : d.stepTo ops fuel now s = some p) :
    ops.ts p.2._s_current = max (ops.ts d._s_current) (round_down_timestamp now s) ∧
      s ∣ ops.ts p.2._s_current := by
  rcases le_or_lt (round_down_timestamp now s) (ops.ts d._s_current) with h | h
  · rw [stepTo_noop ops d now s fuel h] at hrun
    cases hrun
    exact ⟨(max_eq_left h).symm, hal⟩
  · rw [stepTo_eq ops hts d now s hs h fuel] at hrun
    split at hrun
    · cases hrun
      rw [stepToN_current, ts_stepN ops hts,
        ceilSteps_aligned _ _ s hs hal (round_down_dvd now s) h]
      exact ⟨(max_eq_right (le_of_lt h)).symm, round_down_dvd now s⟩
    · cases hrun

theorem changeWindow_current (ops : SeedOps Seed Id R) (hts : StepAddsTs ops) (s : Int)
    (hs : 0 < s) (fuel : Nat) (d d1 : SeedDiskData Seed) (newWindow : Int)
    (hrun : d.changeWindow ops fuel newWindow s = some d1) :
    d1._s_current = d._s_current ∧ d1._window = newWindow ∧
      d1._s_star = stepN ops s
        (ceilSteps (ops.ts d._s_star) (ops.ts d._s_current - newWindow) s) d._s_star := by
  rw [changeWindow_eq ops hts d newWindow s hs fuel] at hrun
  split at hrun
  · cases hrun
    exact ⟨rfl, rfl, rfl⟩
  · cases hrun

theorem runCalls_newest (ops : SeedOps Seed Id R) (hts : StepAddsTs ops) (s : Int) (hs : 0 < s)
    (fuel : Nat) (calls : List ChainCall) (d : SeedDiskData Seed)
    (tr : List (SeedDiskData Seed)) (hal : s ∣ ops.ts d._s_current)
    (hrun : runCalls ops fuel s d calls = some tr) :
    tr.map (fun x => ops.ts x._s_current) = queriedMax s (ops.ts d._s_current) calls ∧
      ∀ x ∈ tr, s ∣ ops.ts x._s_current := by
  induction calls generalizing d tr with
  | nil =>
    simp only [runCalls, Option.some.injEq] at hrun
    subst hrun
    simp [queriedMax]
  | cons c rest ih =>
    simp only [runCalls] at hrun
    cases h1 : applyCall ops fuel s d c with
    | none => simp [h1] at hrun
    | some d1 =>
      cases h2 : runCalls ops fuel s d1 rest with
      | none => simp [h1, h2] at hrun
      | some l =>
        simp only [h1, h2, Option.some.injEq] at hrun
        subst hrun
        cases c with
        | stepTo now =>
          simp only [applyCall] at h1
          cases hp : d.stepTo ops fuel now s with
          | none => simp [hp] at h1
          | some p =>
            simp only [hp, Option.map_some', Option.some.injEq] at h1
            subst h1
            obtain ⟨e1, e2⟩ := stepTo_aligned ops hts s hs fuel d now p hal hp
            obtain ⟨i1, i2⟩ := ih p.2 l e2 h2
            refine ⟨?_, ?_⟩
            · simp only [List.map_cons, queriedMax, e1]
              rw [i1, e1]
            · intro x hx
              rcases List.mem_cons.mp hx with h | h
              · rw [h]
                exact e2
              · exact i2 x h
        | changeWindow newWindow =>
          simp only [applyCall] at h1
          have e := (changeWindow_current ops hts s hs fuel d d1 newWindow h1).1
          obtain ⟨i1, i2⟩ := ih d1 l (by rw [e]; exact hal) h2
          refine ⟨?_, ?_⟩
          · simp only [List.map_cons, queriedMax, e]
            rw [i1, e]
          · intro x hx
            rcases List.mem_cons.mp hx with h | h
            · rw [h, e]
              exact hal
            · exact i2 x h

theorem createNew_aligned (ops : SeedOps Seed Id R) (hts : StepAddsTs ops)
    (hfresh : FreshAnchored ops) (r : R) (now s window : Int) (hs : 0 < s) (hw : 0 ≤ window)
    (hdvd : s ∣ window) (fuel : Nat) (c0 : SeedDiskData Seed)
    (h : SeedDiskData.createNew ops fuel r now s window = some c0) :
    ops.ts c0._s_current = round_down_timestamp now s := by
  rw [createNew_eq ops hts r now s window hs fuel] at h
  split at h
  · cases h
    have hf : ops.ts (ops.safeRandomSeed r (round_down_timestamp now s - window)) =
      round_down_timestamp now s - window := hfresh _ _
    simp only [ts_stepN ops hts, hf]
    rcases eq_or_lt_of_le hw with h0 | h0
    · rw [ceilSteps_eq_zero _ _ s hs (by omega)]
      simp
      omega
    · exact ceilSteps_aligned _ _ s hs (dvd_sub (round_down_dvd now s) hdvd)
        (round_down_dvd now s) (by omega)
  · cases h

/-- C16 as stated fails in two ways.  (1) With a window that is not a multiple of the step
size: `createNew(10000, 100, 950)` anchors oldest at 9050 and stops newest at 10050, which is
not a multiple of 100 and exceeds the rounded time 10000.  (2) With a clock that went
backward: on the chain from 9000 to 10000, `stepTo(9050, 100)` queries the rounded time 9000
and leaves newest at 10000, above the most recently queried rounded time. -/
theorem newest_unaligned_or_ahead :
    SeedDiskData.createNew demoOps 20 5 10000 100 950 =
      some ⟨⟨9050, 5⟩, ⟨10050, 54⟩, 950⟩ ∧
    ¬ ((100 : Int) ∣ 10050) ∧ round_down_timestamp 10000 100 < 10050 ∧
    SeedDiskData.stepTo demoOps 10 ⟨⟨9000, 5⟩, ⟨10000, 54⟩, 1000⟩ 9050 100 =
      some (1054, ⟨⟨9000, 5⟩, ⟨10000, 54⟩, 1000⟩) ∧
    round_down_timestamp 9050 100 < 10000 :=
  ⟨by decide, by decide, by decide, by decide, by decide⟩

/-- C16, amended (alignment of newest).  Let `stepSize > 0`, let `window ≥ 0` be a multiple of
`stepSize`, let one seed step raise the timestamp by exactly `stepSize` and let a fresh seed
carry the timestamp it was asked for.  Then after `createNew(now, stepSize, window)`
`newest.ts` equals `round_down(now, stepSize)`, and after every subsequent `stepTo` and
`changeWindow` with the same step size `newest.ts` is a multiple of `stepSize` and equals the
greatest rounded time queried so far, that of `createNew` included (`queriedMax`); so it never
exceeds that greatest rounded time.  With enough fuel every call of the run returns. -/
theorem newest_aligned (ops : SeedOps Seed Id R) (hts : StepAddsTs ops)
    (hfresh : FreshAnchored ops) (r : R) (now0 stepSize window : Int) (hs : 0 < stepSize)
    (hw : 0 ≤ window) (hdvd : stepSize ∣ window) (calls : List ChainCall) :
    (∀ (fuel0 fuel : Nat) (c0 : SeedDiskData Seed) (tr : List (SeedDiskData Seed)),
      SeedDiskData.createNew ops fuel0 r now0 stepSize window = some c0 →
      runCalls ops fuel stepSize c0 calls = some tr →
      ops.ts c0._s_current = round_down_timestamp now0 stepSize ∧
      stepSize ∣ ops.ts c0._s_current ∧
      tr.map (fun x => ops.ts x._s_current) =
        queriedMax stepSize (round_down_timestamp now0 stepSize) calls ∧
      ∀ x ∈ tr, stepSize ∣ ops.ts x._s_current) ∧
    ∃ (F : Nat) (c0 : SeedDiskData Seed) (tr : List (SeedDiskData Seed)),
      tr.length = calls.length ∧
      ∀ fuel, F ≤ fuel →
        SeedDiskData.createNew ops fuel r now0 stepSize window = some c0 ∧
        runCalls ops fuel stepSize c0 calls = some tr := by
  constructor
  · intro fuel0 fuel c0 tr h0 hrun
    have e0 := createNew_aligned ops hts hfresh r now0 stepSize window hs hw hdvd fuel0 c0 h0
    have hal : stepSize ∣ ops.ts c0._s_current := by
      rw [e0]
      exact round_down_dvd now0 stepSize
    obtain ⟨i1, i2⟩ := runCalls_newest ops hts stepSize hs fuel calls c0 tr hal hrun
    rw [e0] at i1
    exact ⟨e0, hal, i1, i2⟩
  · obtain ⟨F0, c0, hc0⟩ := createNew_total ops hts r now0 stepSize window hs
    obtain ⟨F, tr, hlen, htr⟩ := runCalls_total ops hts stepSize hs calls c0
    exact ⟨max F F0, c0, tr, hlen, fun fuel hf =>
      ⟨hc0 fuel (le_trans (le_max_right _ _) hf), htr fuel (le_trans (le_max_left _ _) hf)⟩⟩

/-- Witness of C16 (amended): step size 100, window 1000, creation at 10000, then
`stepTo(10250)`, `changeWindow(500)`, `stepTo(9050)` and `stepTo(10999)`: newest is at 10200,
10200, 10200 and 10900. -/
theorem newest_aligned_witness :
    StepAddsTs demoOps ∧ FreshAnchored demoOps ∧ (0 : Int) < 100 ∧ (0 : Int) ≤ 1000 ∧
    (100 : Int) ∣ 1000 ∧
    queriedMax 100 (round_down_timestamp 10000 100)
      [ChainCall.stepTo 10250, ChainCall.changeWindow 500, ChainCall.stepTo 9050,
        ChainCall.stepTo 10999] = [10200, 10200, 10200, 10900] ∧
    (runCalls demoOps 10 100 ⟨⟨9000, 5⟩, ⟨10000, 54⟩, 1000⟩
      [ChainCall.stepTo 10250, ChainCall.changeWindow 500, ChainCall.stepTo 9050,
        ChainCall.stepTo 10999]).map (List.map (fun x => demoOps.ts x._s_current)) =
      some [10200, 10200, 10200, 10900] ∧
    ((∀ (fuel0 fuel : Nat) (c0 : SeedDiskData DemoSeed) (tr : List (SeedDiskData DemoSeed)),
      SeedDiskData.createNew demoOps fuel0 5 10000 100 1000 = some c0 →
      runCalls demoOps fuel 100 c0
        [ChainCall.stepTo 10250, ChainCall.changeWindow 500, ChainCall.stepTo 9050,
          ChainCall.stepTo 10999] = some tr →
      demoOps.ts c0._s_current = round_down_timestamp 10000 100 ∧
      (100 : Int) ∣ demoOps.ts c0._s_current ∧
      tr.map (fun x => demoOps.ts x._s_current) =
        queriedMax 100 (round_down_timestamp 10000 100)
          [ChainCall.stepTo 10250, ChainCall.changeWindow 500, ChainCall.stepTo 9050,
            ChainCall.stepTo 10999] ∧
      ∀ x ∈ tr, (100 : Int) ∣ demoOps.ts x._s_current) ∧
    ∃ (F : Nat) (c0 : SeedDiskData DemoSeed) (tr : List (SeedDiskData DemoSeed)),
      tr.length = [ChainCall.stepTo 10250, ChainCall.changeWindow 500, ChainCall.stepTo 9050,
        ChainCall.stepTo 10999].length ∧
      ∀ fuel, F ≤ fuel →
        SeedDiskData.createNew demoOps fuel 5 10000 100 1000 = some c0 ∧
        runCalls demoOps fuel 100 c0
          [ChainCall.stepTo 10250, ChainCall.changeWindow 500, ChainCall.stepTo 9050,
            ChainCall.stepTo 10999] = some tr) :=
  ⟨demoOps_stepAddsTs, demoOps_freshAnchored, by decide, by decide, by decide, by decide,
    by decide,
    newest_aligned demoOps demoOps_stepAddsTs demoOps_freshAnchored 5 10000 100 1000
      (by decide) (by decide) (by decide)
      [ChainCall.stepTo 10250, ChainCall.changeWindow 500, ChainCall.stepTo 9050,
        ChainCall.stepTo 10999]⟩

/-! ## Linkage of oldest and newest, and their order -/

theorem stepN_add (ops : SeedOps Seed Id R) (s : Int) (a b : Nat) (x : Seed) :
    stepN ops s (a + b) x = stepN ops s a (stepN ops s b x) := by
  induction b generalizing x with
  | zero => rfl
  | succ b ih =>
    show stepN ops s (a + b) (ops.stepInPlace x s).1 = stepN ops s a (stepN ops s (b + 1) x)
    rw [ih]
    rfl

theorem linked_gap (ops : SeedOps Seed Id R) (hts : StepAddsTs ops) (s : Int) (hs : 0 < s)
    (d : SeedDiskData Seed) (m : Nat) (h : d._s_current = stepN ops s m d._s_star) :
    d.gap ops = (m : Int) * s ∧ ((d.gap ops) / s).toNat = m ∧
      ops.ts d._s_star ≤ ops.ts d._s_current := by
  have hg : d.gap ops = (m : Int) * s := by
    simp only [SeedDiskData.gap]
    rw [h, ts_stepN ops hts]
    ring
  refine ⟨hg, ?_, ?_⟩
  · rw [hg, Int.mul_ediv_cancel _ (ne_of_gt hs)]
    simp
  · have : (0 : Int) ≤ (m : Int) * s := mul_nonneg (Int.ofNat_nonneg m) (le_of_lt hs)
    simp only [SeedDiskData.gap] at hg
    omega

theorem stepToIter_linked_id (ops : SeedOps Seed Id R) (s : Int) (d : SeedDiskData Seed)
    (m : Nat) (h : d._s_current = stepN ops s m d._s_star) :
    ∃ m1 : Nat, (stepToIter ops s d).2._s_current = stepN ops s m1 (stepToIter ops s d).2._s_star ∧
      (1 ≤ m1 → (stepToIter ops s d).1 =
        (ops.stepInPlace (stepN ops s (m1 - 1) (stepToIter ops s d).2._s_star) s).2) := by
  rw [stepToIter_current, stepToIter_star, stepToIter_id, h]
  split
  · cases m with
    | zero => exact ⟨0, rfl, fun h0 => absurd h0 (by decide)⟩
    | succ k =>
      refine ⟨k + 1, ?_, fun _ => rfl⟩
      rw [← stepN_succ]
      rfl
  · exact ⟨m + 1, (stepN_succ ops s m d._s_star).symm, fun _ => rfl⟩

theorem stepToIter_linked (ops : SeedOps Seed Id R) (s : Int) (d : SeedDiskData Seed)
    (h : Linked ops s d) : Linked ops s (stepToIter ops s d).2 := by
  obtain ⟨m, hm⟩ := h
  obtain ⟨m1, h1, _⟩ := stepToIter_linked_id ops s d m hm
  exact ⟨m1, h1⟩

theorem stepToN_linked_id (ops : SeedOps Seed Id R) (s : Int) (k : Nat)
    (p : Id × SeedDiskData Seed) (h : Linked ops s p.2) :
    ∃ m1 : Nat, (stepToN ops s (k + 1) p).2._s_current =
        stepN ops s m1 (stepToN ops s (k + 1) p).2._s_star ∧
      (1 ≤ m1 → (stepToN ops s (k + 1) p).1 =
        (ops.stepInPlace (stepN ops s (m1 - 1) (stepToN ops s (k + 1) p).2._s_star) s).2) := by
  have hl : ∀ j, Linked ops s (stepToN ops s j p).2 := by
    intro j
    induction j with
    | zero => exact h
    | succ j ih =>
      rw [stepToN_succ]
      exact stepToIter_linked ops s _ ih
  obtain ⟨m, hm⟩ := hl k
  rw [stepToN_succ]
  exact stepToIter_linked_id ops s _ m hm

theorem changeWindow_linked (ops : SeedOps Seed Id R) (hts : StepAddsTs ops) (s : Int)
    (hs : 0 < s) (d d1 : SeedDiskData Seed) (newWindow : Int) (fuel : Nat)
    (hnn : 0 ≤ newWindow) (h : Linked ops s d)
    (hrun : d.changeWindow ops fuel newWindow s = some d1) : Linked ops s d1 := by
  obtain ⟨m, hm⟩ := h
  obtain ⟨e1, _, e3⟩ := changeWindow_current ops hts s hs fuel d d1 newWindow hrun
  have hj : ceilSteps (ops.ts d._s_star) (ops.ts d._s_current - newWindow) s ≤ m := by
    by_contra hc
    have := ceilSteps_least (ops.ts d._s_star) (ops.ts d._s_current - newWindow) s hs m
      (by omega)
    have hg := (linked_gap ops hts s hs d m hm).1
    simp only [SeedDiskData.gap] at hg
    omega
  refine ⟨m - ceilSteps (ops.ts d._s_star) (ops.ts d._s_current - newWindow) s, ?_⟩
  rw [e1, e3, ← stepN_add, Nat.sub_add_cancel hj]
  exact hm

theorem createNew_linked (ops : SeedOps Seed Id R) (hts : StepAddsTs ops) (r : R)
    (now s window : Int) (hs : 0 < s) (fuel : Nat) (c0 : SeedDiskData Seed)
    (h : SeedDiskData.createNew ops fuel r now s window = some c0) : Linked ops s c0 := by
  rw [createNew_eq ops hts r now s window hs fuel] at h
  split at h
  · cases h
    exact ⟨_, rfl⟩
  · cases h

/-- Every chain of a run that starts with `createNew` and whose `changeWindow` calls have
windows `≥ 0` is linked. -/
theorem run_linked (ops : SeedOps Seed Id R) (hts : StepAddsTs ops) (s : Int) (hs : 0 < s)
    (r : R) (now0 window : Int) (calls : List ChainCall) (hnn : windowsNonneg calls)
    (fuel0 fuel : Nat) (c0 : SeedDiskData Seed) (tr : List (SeedDiskData Seed))
    (h0 : SeedDiskData.createNew ops fuel0 r now0 s window = some c0)
    (hrun : runCalls ops fuel s c0 calls = some tr) :
    Linked ops s c0 ∧ ∀ x ∈ tr, Linked ops s x := by
  have hc0 := createNew_linked ops hts r now0 s window hs fuel0 c0 h0
  exact ⟨hc0, runCalls_preserves ops s (Linked ops s) (stepToIter_linked ops s)
    (fun d d1 nw f hnw hd hcw => changeWindow_linked ops hts s hs d d1 nw f hnw hd hcw)
    fuel calls c0 tr hnn hrun hc0⟩

/-- C17 as stated fails for a negative window: on the chain created by
`createNew(10000, 100, 1000)`, oldest at 9000 and newest at 10000, the call
`changeWindow(-50, 100)` advances oldest until the gap is at most -50, that is eleven times,
and leaves oldest at 10100, after newest. -/
theorem changeWindow_negative_breaks_order :
    SeedDiskData.createNew demoOps 10 5 10000 100 1000 =
      some ⟨⟨9000, 5⟩, ⟨10000, 54⟩, 1000⟩ ∧
    SeedDiskData.changeWindow demoOps 20 ⟨⟨9000, 5⟩, ⟨10000, 54⟩, 1000⟩ (-50) 100 =
      some ⟨⟨10100, 78⟩, ⟨10000, 54⟩, -50⟩ ∧
    ¬ (demoOps.ts (⟨⟨10100, 78⟩, ⟨10000, 54⟩, -50⟩ : SeedDiskData DemoSeed)._s_star ≤
      demoOps.ts (⟨⟨10100, 78⟩, ⟨10000, 54⟩, -50⟩ : SeedDiskData DemoSeed)._s_current) :=
  ⟨by decide, by decide, by decide⟩

/-- C17, amended (ordering invariant).  Let `stepSize > 0` and let one seed step raise the
timestamp by exactly `stepSize`.  For every `now` and `window`, the chain returned by
`createNew(now, stepSize, window)` has `oldest.ts ≤ newest.ts`, and so has the chain after
every call of a subsequent run of `stepTo(now', stepSize)` and
`changeWindow(newWindow, stepSize)` calls in which every `newWindow` is `≥ 0`.  With enough
fuel every call of the run returns. -/
theorem ordering_invariant (ops : SeedOps Seed Id R) (hts : StepAddsTs ops) (r : R)
    (now0 stepSize window : Int) (hs : 0 < stepSize) (calls : List ChainCall)
    (hnn : windowsNonneg calls) :
    (∀ (fuel0 fuel : Nat) (c0 : SeedDiskData Seed) (tr : List (SeedDiskData Seed)),
      SeedDiskData.createNew ops fuel0 r now0 stepSize window = some c0 →
      runCalls ops fuel stepSize c0 calls = some tr →
      ops.ts c0._s_star ≤ ops.ts c0._s_current ∧
      ∀ x ∈ tr, ops.ts x._s_star ≤ ops.ts x._s_current) ∧
    ∃ (F : Nat) (c0 : SeedDiskData Seed) (tr : List (SeedDiskData Seed)),
      tr.length = calls.length ∧
      ∀ fuel, F ≤ fuel →
        SeedDiskData.createNew ops fuel r now0 stepSize window = some c0 ∧
        runCalls ops fuel stepSize c0 calls = some tr := by
  constructor
  · intro fuel0 fuel c0 tr h0 hrun
    obtain ⟨l0, ltr⟩ := run_linked ops hts stepSize hs r now0 window calls hnn fuel0 fuel c0 tr
      h0 hrun
    refine ⟨?_, fun x hx => ?_⟩
    · obtain ⟨m, hm⟩ := l0
      exact (linked_gap ops hts stepSize hs c0 m hm).2.2
    · obtain ⟨m, hm⟩ := ltr x hx
      exact (linked_gap ops hts stepSize hs x m hm).2.2
  · obtain ⟨F0, c0, hc0⟩ := createNew_total ops hts r now0 stepSize window hs
    obtain ⟨F, tr, hlen, htr⟩ := runCalls_total ops hts stepSize hs calls c0
    exact ⟨max F F0, c0, tr, hlen, fun fuel hf =>
      ⟨hc0 fuel (le_trans (le_max_right _ _) hf), htr fuel (le_trans (le_max_left _ _) hf)⟩⟩

/-- Witness of C17 (amended): step size 100, window 1000, creation at 10000, then
`stepTo(10250)`, `changeWindow(0)` and `stepTo(10999)`; after `changeWindow(0)` oldest and
newest coincide at 10200, and they stay together. -/
theorem ordering_invariant_witness :
    StepAddsTs demoOps ∧ (0 : Int) < 100 ∧
    windowsNonneg [ChainCall.stepTo 10250, ChainCall.changeWindow 0, ChainCall.stepTo 10999] ∧
    (runCalls demoOps 10 100 ⟨⟨9000, 5⟩, ⟨10000, 54⟩, 1000⟩
      [ChainCall.stepTo 10250, ChainCall.changeWindow 0, ChainCall.stepTo 10999]).map
        (List.map (fun x => (demoOps.ts x._s_star, demoOps.ts x._s_current))) =
      some [(9200, 10200), (10200, 10200), (10900, 10900)] ∧
    ((∀ (fuel0 fuel : Nat) (c0 : SeedDiskData DemoSeed) (tr : List (SeedDiskData DemoSeed)),
      SeedDiskData.createNew demoOps fuel0 5 10000 100 1000 = some c0 →
      runCalls demoOps fuel 100 c0
        [ChainCall.stepTo 10250, ChainCall.changeWindow 0, ChainCall.stepTo 10999] = some tr →
      demoOps.ts c0._s_star ≤ demoOps.ts c0._s_current ∧
      ∀ x ∈ tr, demoOps.ts x._s_star ≤ demoOps.ts x._s_current) ∧
    ∃ (F : Nat) (c0 : SeedDiskData DemoSeed) (tr : List (SeedDiskData DemoSeed)),
      tr.length =
        [ChainCall.stepTo 10250, ChainCall.changeWindow 0, ChainCall.stepTo 10999].length ∧
      ∀ fuel, F ≤ fuel →
        SeedDiskData.createNew demoOps fuel 5 10000 100 1000 = some c0 ∧
        runCalls demoOps fuel 100 c0
          [ChainCall.stepTo 10250, ChainCall.changeWindow 0, ChainCall.stepTo 10999] =
            some tr) :=
  ⟨demoOps_stepAddsTs, by decide, ⟨by decide, trivial⟩, by decide,
    ordering_invariant demoOps demoOps_stepAddsTs 5 10000 100 1000 (by decide)
      [ChainCall.stepTo 10250, ChainCall.changeWindow 0, ChainCall.stepTo 10999]
      ⟨by decide, trivial⟩⟩

/-- C18 (irreversibility of a window shrink).  Let `stepSize > 0`, let one seed step raise the
timestamp by exactly `stepSize`, and let `a ≤ b`.  (1) If `changeWindow(a, stepSize)` took the
chain to `d1`, then `changeWindow(b, stepSize)` on `d1` returns for every fuel and gives `d1`
with only the window replaced by `b`: oldest and newest stay as the shrink left them.
(2) Whatever the new window, `changeWindow` leaves newest as it is and leaves oldest at the
old oldest advanced some number of times, never at an earlier timestamp.  (3) With enough fuel
`changeWindow(a, stepSize)` returns. -/
theorem changeWindow_irreversible (ops : SeedOps Seed Id R) (hts : StepAddsTs ops)
    (d : SeedDiskData Seed) (a b stepSize : Int) (hs : 0 < stepSize) (hab : a ≤ b) :
    (∀ (fuel : Nat) (d1 : SeedDiskData Seed), d.changeWindow ops fuel a stepSize = some d1 →
      ∀ fuel2, d1.changeWindow ops fuel2 b stepSize = some { d1 with _window := b }) ∧
    (∀ (fuel : Nat) (newWindow : Int) (d1 : SeedDiskData Seed),
      d.changeWindow ops fuel newWindow stepSize = some d1 →
      d1._s_current = d._s_current ∧ ops.ts d._s_star ≤ ops.ts d1._s_star ∧
      ∃ j : Nat, d1._s_star = stepN ops stepSize j d._s_star) ∧
    (∃ (F : Nat) (d1 : SeedDiskData Seed),
      ∀ fuel, F ≤ fuel → d.changeWindow ops fuel a stepSize = some d1) := by
  refine ⟨?_, ?_, ?_⟩
  · intro fuel d1 h1 fuel2
    obtain ⟨e1, _, e3⟩ := changeWindow_current ops hts stepSize hs fuel d d1 a h1
    have hreach := ceilSteps_reach (ops.ts d._s_star) (ops.ts d._s_current - a) stepSize hs
    have hz : ceilSteps (ops.ts d1._s_star) (ops.ts d1._s_current - b) stepSize = 0 := by
      apply ceilSteps_eq_zero _ _ _ hs
      rw [e1, e3, ts_stepN ops hts]
      omega
    rw [changeWindow_eq ops hts d1 b stepSize hs fuel2, hz, if_pos (Nat.zero_le _)]
    rfl
  · intro fuel newWindow d1 h1
    obtain ⟨e1, _, e3⟩ := changeWindow_current ops hts stepSize hs fuel d d1 newWindow h1
    refine ⟨e1, ?_, _, e3⟩
    rw [e3, ts_stepN ops hts]
    have : (0 : Int) ≤
        (ceilSteps (ops.ts d._s_star) (ops.ts d._s_current - newWindow) stepSize : Int) *
          stepSize := mul_nonneg (Int.ofNat_nonneg _) (le_of_lt hs)
    omega
  · exact ⟨ceilSteps (ops.ts d._s_star) (ops.ts d._s_current - a) stepSize, _, fun fuel hf => by
      rw [changeWindow_eq ops hts d a stepSize hs fuel, if_pos hf]⟩

/-- Witness of C18: on the chain from 9200 to 10200, `changeWindow(500, 100)` leaves oldest at
9700, and a following `changeWindow(1000, 100)` changes the window only. -/
theorem changeWindow_irreversible_witness :
    StepAddsTs demoOps ∧ (0 : Int) < 100 ∧ (500 : Int) ≤ 1000 ∧
    SeedDiskData.changeWindow demoOps 5 ⟨⟨9200, 67⟩, ⟨10200, 44⟩, 1000⟩ 500 100 =
      some ⟨⟨9700, 40⟩, ⟨10200, 44⟩, 500⟩ ∧
    SeedDiskData.changeWindow demoOps 0 ⟨⟨9700, 40⟩, ⟨10200, 44⟩, 500⟩ 1000 100 =
      some ⟨⟨9700, 40⟩, ⟨10200, 44⟩, 1000⟩ ∧
    (∀ (fuel : Nat) (d1 : SeedDiskData DemoSeed),
      SeedDiskData.changeWindow demoOps fuel ⟨⟨9200, 67⟩, ⟨10200, 44⟩, 1000⟩ 500 100 =
        some d1 →
      ∀ fuel2, d1.changeWindow demoOps fuel2 1000 100 = some { d1 with _window := 1000 }) :=
  ⟨demoOps_stepAddsTs, by decide, by decide, by decide, by decide,
    (changeWindow_irreversible demoOps demoOps_stepAddsTs ⟨⟨9200, 67⟩, ⟨10200, 44⟩, 1000⟩
      500 1000 100 (by decide) (by decide)).1⟩

/-- C19 (disclosure sufficiency, the chain-linkage invariant).  Let `stepSize > 0` and
`window ≥ 0`, and let one seed step raise the timestamp by exactly `stepSize`.  (1) In the
chain returned by `createNew` and after every call of a subsequent run of `stepTo` and
`changeWindow` calls (every `newWindow ≥ 0`), newest equals oldest advanced exactly
`(newest.ts - oldest.ts) / stepSize` times.  (2) With enough fuel the run exists.  (3) For a
chain with this linkage and an advancing `stepTo` that returns identifier and chain `p`: the
new chain has the linkage, with `m = (newest.ts - oldest.ts) / stepSize`; if `m ≥ 1` the
identifier is the one written by the `m`-th step from the new oldest seed; and if `genId` of a
just-advanced seed is the identifier the advance wrote, the identifier is `genId` of the new
oldest seed advanced `m` times (also for `m = 0`). -/
theorem chain_linkage (ops : SeedOps Seed Id R) (hts : StepAddsTs ops) (r : R)
    (now0 stepSize window : Int) (hs : 0 < stepSize) (hw : 0 ≤ window)
    (calls : List ChainCall) (hnn : windowsNonneg calls) :
    (∀ (fuel0 fuel : Nat) (c0 : SeedDiskData Seed) (tr : List (SeedDiskData Seed)),
      SeedDiskData.createNew ops fuel0 r now0 stepSize window = some c0 →
      runCalls ops fuel stepSize c0 calls = some tr →
      c0._s_current = stepN ops stepSize ((c0.gap ops) / stepSize).toNat c0._s_star ∧
      ∀ x ∈ tr, x._s_current = stepN ops stepSize ((x.gap ops) / stepSize).toNat x._s_star) ∧
    (∃ (F : Nat) (c0 : SeedDiskData Seed) (tr : List (SeedDiskData Seed)),
      tr.length = calls.length ∧
      ∀ fuel, F ≤ fuel →
        SeedDiskData.createNew ops fuel r now0 stepSize window = some c0 ∧
        runCalls ops fuel stepSize c0 calls = some tr) ∧
    (∀ (d : SeedDiskData Seed) (fuel : Nat) (now : Int) (p : Id × SeedDiskData Seed),
      d._s_current = stepN ops stepSize ((d.gap ops) / stepSize).toNat d._s_star →
      ops.ts d._s_current < round_down_timestamp now stepSize →
      d.stepTo ops fuel now stepSize = some p →
      p.2._s_current = stepN ops stepSize ((p.2.gap ops) / stepSize).toNat p.2._s_star ∧
      (1 ≤ ((p.2.gap ops) / stepSize).toNat →
        p.1 = (ops.stepInPlace
          (stepN ops stepSize (((p.2.gap ops) / stepSize).toNat - 1) p.2._s_star) stepSize).2) ∧
      (GenIdOfStep ops →
        p.1 = ops.genId (stepN ops stepSize ((p.2.gap ops) / stepSize).toNat p.2._s_star))) := by
  have _ := hw
  refine ⟨?_, ?_, ?_⟩
  · intro fuel0 fuel c0 tr h0 hrun
    obtain ⟨l0, ltr⟩ := run_linked ops hts stepSize hs r now0 window calls hnn fuel0 fuel c0 tr
      h0 hrun
    refine ⟨?_, fun x hx => ?_⟩
    · obtain ⟨m, hm⟩ := l0
      rw [(linked_gap ops hts stepSize hs c0 m hm).2.1]
      exact hm
    · obtain ⟨m, hm⟩ := ltr x hx
      rw [(linked_gap ops hts stepSize hs x m hm).2.1]
      exact hm
  · obtain ⟨F0, c0, hc0⟩ := createNew_total ops hts r now0 stepSize window hs
    obtain ⟨F, tr, hlen, htr⟩ := runCalls_total ops hts stepSize hs calls c0
    exact ⟨max F F0, c0, tr, hlen, fun fuel hf =>
      ⟨hc0 fuel (le_trans (le_max_right _ _) hf), htr fuel (le_trans (le_max_left _ _) hf)⟩⟩
  · intro d fuel now p hd hlt hrun
    rw [stepTo_eq ops hts d now stepSize hs hlt fuel] at hrun
    split at hrun
    · obtain ⟨k, hk⟩ := Nat.exists_eq_succ_of_ne_zero
        (Nat.pos_iff_ne_zero.mp (ceilSteps_pos _ _ stepSize hs hlt))
      rw [hk] at hrun
      cases hrun
      obtain ⟨m1, h1, h2⟩ := stepToN_linked_id ops stepSize k (ops.defaultId, d) ⟨_, hd⟩
      have hm := (linked_gap ops hts stepSize hs _ m1 h1).2.1
      rw [hm]
      refine ⟨h1, h2, fun hgen => ?_⟩
      rw [← h1, stepToN_id, stepToN_current, stepN_succ]
      exact (hgen _ _).symm
    · cases hrun

/-- Witness of C19: step size 100, window 1000, creation at 10000, then `stepTo(10250)`,
`changeWindow(500)` and `stepTo(10999)`: the gaps are 1000, 500 and 500, and newest is oldest
advanced 10, 5 and 5 times. -/
theorem chain_linkage_witness :
    StepAddsTs demoOps ∧ (0 : Int) < 100 ∧ (0 : Int) ≤ 1000 ∧
    windowsNonneg [ChainCall.stepTo 10250, ChainCall.changeWindow 500, ChainCall.stepTo 10999] ∧
    (runCalls demoOps 10 100 ⟨⟨9000, 5⟩, ⟨10000, 54⟩, 1000⟩
      [ChainCall.stepTo 10250, ChainCall.changeWindow 500, ChainCall.stepTo 10999]).map
        (List.map (fun x => decide (x._s_current =
          stepN demoOps 100 ((x.gap demoOps) / 100).toNat x._s_star))) =
      some [true, true, true] ∧
    (runCalls demoOps 10 100 ⟨⟨9000, 5⟩, ⟨10000, 54⟩, 1000⟩
      [ChainCall.stepTo 10250, ChainCall.changeWindow 500, ChainCall.stepTo 10999]).map
        (List.map (fun x => ((x.gap demoOps) / 100).toNat)) = some [10, 5, 5] ∧
    (∀ (fuel0 fuel : Nat) (c0 : SeedDiskData DemoSeed) (tr : List (SeedDiskData DemoSeed)),
      SeedDiskData.createNew demoOps fuel0 5 10000 100 1000 = some c0 →
      runCalls demoOps fuel 100 c0
        [ChainCall.stepTo 10250, ChainCall.changeWindow 500, ChainCall.stepTo 10999] =
          some tr →
      c0._s_current = stepN demoOps 100 ((c0.gap demoOps) / 100).toNat c0._s_star ∧
      ∀ x ∈ tr, x._s_current = stepN demoOps 100 ((x.gap demoOps) / 100).toNat x._s_star) :=
  ⟨demoOps_stepAddsTs, by decide, by decide, ⟨by decide, trivial⟩, by decide, by decide,
    (chain_linkage demoOps demoOps_stepAddsTs 5 10000 100 1000 (by decide) (by decide)
      [ChainCall.stepTo 10250, ChainCall.changeWindow 500, ChainCall.stepTo 10999]
      ⟨by decide, trivial⟩).1⟩

/-! ## Termination -/

theorem stepToN_star_count (ops : SeedOps Seed Id R) (s : Int) (k : Nat)
    (p : Id × SeedDiskData Seed) :
    ∃ m : Nat, m ≤ k ∧ (stepToN ops s k p).2._s_star = stepN ops s m p.2._s_star := by
  induction k with
  | zero => exact ⟨0, le_refl 0, rfl⟩
  | succ k ih =>
    obtain ⟨m, hm, he⟩ := ih
    rw [stepToN_succ, stepToIter_star]
    split
    · exact ⟨m + 1, Nat.succ_le_succ hm, by rw [he, stepN_succ]⟩
    · exact ⟨m, Nat.le_succ_of_le hm, he⟩

/-- C20 (termination).  Let `stepSize > 0` and let one seed step raise the timestamp by
exactly `stepSize`.  For every `now`, `window` and `newWindow` the three loops end, after a
number of iterations equal to the ceiling of the timestamp distance to cover divided by
`stepSize` (`ceilSteps`), so any fuel of at least that size makes the call return:
(1) `createNew` advances newest `ceil((n - oldest.ts) / stepSize)` times, `n` being the rounded
time; (2) `stepTo` advances newest `ceil((n - newest.ts) / stepSize)` times and oldest at most
as often; (3) `changeWindow` advances oldest
`ceil((newest.ts - newWindow - oldest.ts) / stepSize)` times. -/
theorem loops_terminate (ops : SeedOps Seed Id R) (hts : StepAddsTs ops) (stepSize : Int)
    (hs : 0 < stepSize) :
    (∀ (r : R) (now window : Int), ∃ c : SeedDiskData Seed,
      (∀ fuel, ceilSteps (ops.ts (ops.safeRandomSeed r
          (round_down_timestamp now stepSize - window)))
          (round_down_timestamp now stepSize) stepSize ≤ fuel →
        SeedDiskData.createNew ops fuel r now stepSize window = some c) ∧
      c._s_current = stepN ops stepSize
        (ceilSteps (ops.ts c._s_star) (round_down_timestamp now stepSize) stepSize)
        c._s_star) ∧
    (∀ (d : SeedDiskData Seed) (now : Int), ∃ p : Id × SeedDiskData Seed,
      (∀ fuel, ceilSteps (ops.ts d._s_current) (round_down_timestamp now stepSize) stepSize ≤
          fuel →
        d.stepTo ops fuel now stepSize = some p) ∧
      p.2._s_current = stepN ops stepSize
        (ceilSteps (ops.ts d._s_current) (round_down_timestamp now stepSize) stepSize)
        d._s_current ∧
      ∃ m : Nat,
        m ≤ ceilSteps (ops.ts d._s_current) (round_down_timestamp now stepSize) stepSize ∧
        p.2._s_star = stepN ops stepSize m d._s_star) ∧
    (∀ (d : SeedDiskData Seed) (newWindow : Int), ∃ d1 : SeedDiskData Seed,
      (∀ fuel, ceilSteps (ops.ts d._s_star) (ops.ts d._s_current - newWindow) stepSize ≤ fuel →
        d.changeWindow ops fuel newWindow stepSize = some d1) ∧
      d1._s_current = d._s_current ∧
      d1._s_star = stepN ops stepSize
        (ceilSteps (ops.ts d._s_star) (ops.ts d._s_current - newWindow) stepSize)
        d._s_star) := by
  refine ⟨?_, ?_, ?_⟩
  · intro r now window
    exact ⟨_, fun fuel hf => by
      rw [createNew_eq ops hts r now stepSize window hs fuel, if_pos hf], rfl⟩
  · intro d now
    rcases le_or_lt (round_down_timestamp now stepSize) (ops.ts d._s_current) with h | h
    · refine ⟨(ops.genId d._s_current, d),
        fun fuel _ => stepTo_noop ops d now stepSize fuel h, ?_, 0, Nat.zero_le _, rfl⟩
      rw [ceilSteps_eq_zero _ _ stepSize hs h]
      rfl
    · refine ⟨stepToN ops stepSize
          (ceilSteps (ops.ts d._s_current) (round_down_timestamp now stepSize) stepSize)
          (ops.defaultId, d),
        fun fuel hf => by rw [stepTo_eq ops hts d now stepSize hs h fuel, if_pos hf],
        stepToN_current ops stepSize _ _, ?_⟩
      exact stepToN_star_count ops stepSize _ (ops.defaultId, d)
  · intro d newWindow
    exact ⟨{ _s_star := stepN ops stepSize
               (ceilSteps (ops.ts d._s_star) (ops.ts d._s_current - newWindow) stepSize)
               d._s_star
             _s_current := d._s_current
             _window := newWindow },
      fun fuel hf => by
        rw [changeWindow_eq ops hts d newWindow stepSize hs fuel, if_pos hf], rfl, rfl⟩

/-- Witness of C20 on the concrete seed operations with step size 100: `createNew(10000,
100, 1000)` needs ten iterations, `stepTo(10250, 100)` two, `changeWindow(500, 100)` five, and
each call returns with exactly that much fuel. -/
theorem loops_terminate_witness :
    StepAddsTs demoOps ∧ (0 : Int) < 100 ∧
    SeedDiskData.createNew demoOps 10 5 10000 100 1000 =
      some ⟨⟨9000, 5⟩, ⟨10000, 54⟩, 1000⟩ ∧
    SeedDiskData.stepTo demoOps 2 ⟨⟨9000, 5⟩, ⟨10000, 54⟩, 1000⟩ 10250 100 =
      some (1044, ⟨⟨9200, 67⟩, ⟨10200, 44⟩, 1000⟩) ∧
    SeedDiskData.changeWindow demoOps 5 ⟨⟨9200, 67⟩, ⟨10200, 44⟩, 1000⟩ 500 100 =
      some ⟨⟨9700, 40⟩, ⟨10200, 44⟩, 500⟩ ∧
    (∀ (d : SeedDiskData DemoSeed) (newWindow : Int), ∃ d1 : SeedDiskData DemoSeed,
      (∀ fuel, ceilSteps (demoOps.ts d._s_star) (demoOps.ts d._s_current - newWindow) 100 ≤
          fuel →
        d.changeWindow demoOps fuel newWindow 100 = some d1) ∧
      d1._s_current = d._s_current ∧
      d1._s_star = stepN demoOps 100
        (ceilSteps (demoOps.ts d._s_star) (demoOps.ts d._s_current - newWindow) 100)
        d._s_star) :=
  ⟨demoOps_stepAddsTs, by decide, by decide, by decide, by decide,
    (loops_terminate demoOps demoOps_stepAddsTs 100 (by decide)).2.2⟩

end td
